import Mathlib

/-!
Verification of the frame-aware page observation and action dispatch engine
(accessibility-DOM capture, frame graph, element resolver, action dispatcher).

The TypeScript sources are shallowly embedded: JS strings become `List Char`,
JS objects become structures, JS `Map`/`Record` become association lists in
insertion order, and asynchronous CDP interactions become explicit oracle
inputs describing the outcome of each wire call.  Every definition mirrors a
named function of the repository (the source file is cited in its doc
comment).
-/

namespace Ctrl

/-! ## Decimal strings

JS template literals such as `` `${frameIndex}-${backendNodeId}` `` print
naturals in canonical decimal; `parseInt(s, 10)` reads a decimal prefix.
We model both directions over `List Char`. -/

/-- Digit test for characters '0'..'9'. -/
def isDigitChar (c : Char) : Bool := 48 ≤ c.toNat && c.toNat ≤ 57

/-- Numeric value of a digit character ('0' ↦ 0, …, '9' ↦ 9). -/
def charToDigit (c : Char) : Nat := c.toNat - 48

/-- Digit character of a value below ten. -/
def digitToChar (d : Nat) : Char := Char.ofNat (48 + d)

/-- Value of a big-endian digit-character string, as `parseInt` accumulates it. -/
def digitsToNat (s : List Char) : Nat :=
  s.foldl (fun acc c => acc * 10 + charToDigit c) 0

/-- Little-endian list of decimal digits of a natural number. -/
def natDigitsLE (n : Nat) : List Nat :=
  if h : n < 10 then [n]
  else n % 10 :: natDigitsLE (n / 10)
termination_by n
decreasing_by exact Nat.div_lt_self (by omega) (by omega)

/-- Value of a little-endian digit list. -/
def ofDigitsLE : List Nat → Nat
  | [] => 0
  | d :: t => d + 10 * ofDigitsLE t

/-- Canonical decimal printing of a natural number (what `${n}` produces). -/
def natRepr (n : Nat) : List Char :=
  ((natDigitsLE n).reverse).map digitToChar

theorem getLast?_cons_ne_nil {α : Type} {x : α} {l : List α} (h : l ≠ []) :
    (x :: l).getLast? = l.getLast? := by
  cases l with
  | nil => exact absurd rfl h
  | cons y t => exact List.getLast?_cons_cons ..

theorem mem_of_getLast?_eq {α : Type} {l : List α} {x : α}
    (h : l.getLast? = some x) : x ∈ l := by
  obtain ⟨hh, hx⟩ := List.mem_getLast?_eq_getLast (l := l) (x := x) h
  rw [hx]
  exact List.getLast_mem hh

theorem ofDigitsLE_natDigitsLE (n : Nat) : ofDigitsLE (natDigitsLE n) = n := by
  induction n using Nat.strong_induction_on with
  | _ n ih =>
    rw [natDigitsLE]
    split
    · simp [ofDigitsLE]
    · rename_i h
      rw [ofDigitsLE, ih (n / 10) (Nat.div_lt_self (by omega) (by omega))]
      omega

theorem natDigitsLE_ne_nil (n : Nat) : natDigitsLE n ≠ [] := by
  rw [natDigitsLE]; split <;> simp

theorem natDigitsLE_lt_ten (n : Nat) : ∀ d ∈ natDigitsLE n, d < 10 := by
  induction n using Nat.strong_induction_on with
  | _ n ih =>
    rw [natDigitsLE]
    split
    · rename_i h; intro d hd; simp at hd; omega
    · rename_i h
      intro d hd
      rcases List.mem_cons.mp hd with h1 | h2
      · omega
      · exact ih (n / 10) (Nat.div_lt_self (by omega) (by omega)) d h2

theorem natDigitsLE_getLast (n : Nat) :
    (natDigitsLE n).getLast? = some 0 → natDigitsLE n = [0] := by
  induction n using Nat.strong_induction_on with
  | _ n ih =>
    rw [natDigitsLE]
    split
    · rename_i h; intro hl; simp at hl; simp [hl]
    · rename_i h
      intro hl
      rw [getLast?_cons_ne_nil (natDigitsLE_ne_nil _)] at hl
      have := ih (n / 10) (Nat.div_lt_self (by omega) (by omega)) hl
      have hv := ofDigitsLE_natDigitsLE (n / 10)
      rw [this] at hv
      simp [ofDigitsLE] at hv
      omega

theorem ofDigitsLE_pos {t : List Nat} (hne : t ≠ [])
    (hlast : t.getLast? ≠ some 0) : 0 < ofDigitsLE t := by
  induction t with
  | nil => exact absurd rfl hne
  | cons d u ih =>
    by_cases hu : u = []
    · subst hu
      simp [List.getLast?] at hlast
      simp [ofDigitsLE]
      omega
    · rw [getLast?_cons_ne_nil hu] at hlast
      have := ih hu hlast
      simp [ofDigitsLE]
      omega

theorem natDigitsLE_ofDigitsLE {t : List Nat} (hne : t ≠ [])
    (hd : ∀ d ∈ t, d < 10) (hlast : t.getLast? = some 0 → t = [0]) :
    natDigitsLE (ofDigitsLE t) = t := by
  induction t with
  | nil => exact absurd rfl hne
  | cons d u ih =>
    by_cases hu : u = []
    · subst hu
      have : d < 10 := hd d (by simp)
      rw [natDigitsLE]
      simp [ofDigitsLE]
      omega
    · have hlast2 : u.getLast? ≠ some 0 := by
        intro hz
        have : d :: u = [0] := hlast (by rw [getLast?_cons_ne_nil hu]; exact hz)
        simp at this
        exact hu this.2
      have hupos : 0 < ofDigitsLE u := ofDigitsLE_pos hu hlast2
      have hdlt : d < 10 := hd d (by simp)
      have hval : ofDigitsLE (d :: u) = d + 10 * ofDigitsLE u := rfl
      rw [natDigitsLE]
      have hbig : ¬ ofDigitsLE (d :: u) < 10 := by rw [hval]; omega
      rw [dif_neg hbig]
      have hmod : ofDigitsLE (d :: u) % 10 = d := by
        rw [hval, Nat.add_mul_mod_self_left, Nat.mod_eq_of_lt hdlt]
      have hdiv : ofDigitsLE (d :: u) / 10 = ofDigitsLE u := by
        rw [hval, Nat.add_mul_div_left d _ (by omega), Nat.div_eq_of_lt hdlt]
        omega
      rw [hmod, hdiv,
        ih hu (fun x hx => hd x (List.mem_cons_of_mem d hx))
          (fun hz => absurd hz hlast2)]

theorem digitToChar_charToDigit {c : Char} (h : isDigitChar c = true) :
    digitToChar (charToDigit c) = c := by
  simp [isDigitChar] at h
  have : 48 + (c.toNat - 48) = c.toNat := by omega
  rw [digitToChar, charToDigit, this, Char.ofNat_toNat]

theorem charToDigit_lt_ten {c : Char} (h : isDigitChar c = true) :
    charToDigit c < 10 := by
  simp [isDigitChar] at h
  simp [charToDigit]
  omega

theorem digitToChar_is_digit {d : Nat} (h : d < 10) :
    isDigitChar (digitToChar d) = true := by
  interval_cases d <;> decide

theorem digitsToNat_append (s : List Char) (c : Char) :
    digitsToNat (s ++ [c]) = digitsToNat s * 10 + charToDigit c := by
  simp [digitsToNat, List.foldl_append]

theorem digitsToNat_eq_ofDigitsLE (s : List Char) :
    digitsToNat s = ofDigitsLE ((s.map charToDigit).reverse) := by
  induction s using List.reverseRecOn with
  | nil => simp [digitsToNat, ofDigitsLE]
  | append_singleton s c ih =>
    rw [digitsToNat_append]
    simp [ofDigitsLE, ih]
    ring

/-- A canonical decimal string: nonempty, all digits, no leading zero
(the lone string "0" excepted).  This is the `^\d+$` fragment of the wire
format with the no-leading-zeros side condition. -/
def canonicalNumStr (s : List Char) : Prop :=
  s ≠ [] ∧ (∀ c ∈ s, isDigitChar c = true) ∧ (s.head? = some '0' → s = ['0'])

theorem natRepr_digitsToNat {s : List Char} (h : canonicalNumStr s) :
    natRepr (digitsToNat s) = s := by
  obtain ⟨hne, hdig, hlead⟩ := h
  rw [digitsToNat_eq_ofDigitsLE, natRepr]
  have hne2 : (s.map charToDigit).reverse ≠ [] := by
    simp
    exact hne
  have hd : ∀ d ∈ (s.map charToDigit).reverse, d < 10 := by
    intro d hdm
    rw [List.mem_reverse, List.mem_map] at hdm
    obtain ⟨c, hc, hcd⟩ := hdm
    rw [← hcd]
    exact charToDigit_lt_ten (hdig c hc)
  have hlast : ((s.map charToDigit).reverse).getLast? = some 0 →
      (s.map charToDigit).reverse = [0] := by
    intro hz
    rw [List.getLast?_reverse] at hz
    cases s with
    | nil => simp at hz
    | cons c u =>
      simp at hz
      have hcdig := hdig c (by simp)
      have hc0 : c = '0' := by
        simp [isDigitChar] at hcdig
        have ht : c.toNat = 48 := by
          simp [charToDigit] at hz
          omega
        have h2 := Char.ofNat_toNat c
        rw [ht] at h2
        rw [← h2]
      have := hlead (by simp [hc0])
      rw [this]
      rfl
  rw [natDigitsLE_ofDigitsLE hne2 hd hlast]
  rw [List.reverse_reverse, List.map_map]
  have : ∀ c ∈ s, (digitToChar ∘ charToDigit) c = c := by
    intro c hc
    exact digitToChar_charToDigit (hdig c hc)
  exact List.map_congr_left this |>.trans (List.map_id s)

theorem canonicalNumStr_natRepr (n : Nat) : canonicalNumStr (natRepr n) := by
  refine ⟨?_, ?_, ?_⟩
  · simp [natRepr]
    exact natDigitsLE_ne_nil n
  · intro c hc
    simp [natRepr] at hc
    obtain ⟨d, hd, hcd⟩ := hc
    rw [← hcd]
    exact digitToChar_is_digit (natDigitsLE_lt_ten n d hd)
  · intro hh
    rw [natRepr] at hh
    rw [List.head?_map, List.head?_reverse] at hh
    cases hgl : (natDigitsLE n).getLast? with
    | none => rw [hgl] at hh; simp at hh
    | some d =>
      rw [hgl] at hh
      simp at hh
      have hd10 : d < 10 := by
        have := mem_of_getLast?_eq hgl
        exact natDigitsLE_lt_ten n d this
      have hd0 : d = 0 := by
        rw [digitToChar] at hh
        interval_cases d <;> simp_all
      rw [hd0] at hgl
      have := natDigitsLE_getLast n hgl
      rw [natRepr, this]
      decide

theorem digitsToNat_natRepr (n : Nat) : digitsToNat (natRepr n) = n := by
  rw [digitsToNat_eq_ofDigitsLE, natRepr, List.map_map, List.map_reverse,
    List.reverse_reverse]
  have : ((natDigitsLE n).map (charToDigit ∘ digitToChar)) = natDigitsLE n := by
    refine (List.map_congr_left ?_).trans (List.map_id _)
    intro d hd
    have hlt := natDigitsLE_lt_ten n d hd
    interval_cases d <;> decide
  rw [this, ofDigitsLE_natDigitsLE]

/-! ## EncodedId codec

Source: `src/context-providers/a11y-dom/utils.ts`, `parseEncodedId`
(lines 202–211) and `createEncodedId` (lines 216–221). -/

/-- Encoded element address, a JS string `"<frameIndex>-<backendNodeId>"`. -/
abbrev EncodedId := List Char

/-- Behaviour of JS `String.prototype.split(sep)` for a one-character
separator: the list of (possibly empty) chunks between separators. -/
def jsSplitOnChar (sep : Char) : List Char → List (List Char)
  | [] => [[]]
  | c :: rest =>
    match jsSplitOnChar sep rest with
    | [] => if c = sep then [[], [c]] else [[c]]
    | h :: t => if c = sep then [] :: h :: t else (c :: h) :: t

/-- Behaviour of JS `parseInt(s, 10)` on strings made of decimal digits:
the value of the digit prefix, `none` standing for `NaN` when the string
starts with a non-digit (sign/whitespace handling is not needed here: every
call site feeds pieces of `^\d+-\d+$` strings). -/
def parseIntDec (s : List Char) : Option Nat :=
  match s.takeWhile isDigitChar with
  | [] => none
  | ds => some (digitsToNat ds)

/-- Result shape of `parseEncodedId`; `none` components model `NaN`. -/
structure ParsedEncodedId where
  frameIndex : Option Nat
  backendNodeId : Option Nat
deriving Repr, DecidableEq

/-- Embeds `parseEncodedId` (utils.ts lines 202–211): split on "-" and
`parseInt` the first two chunks (a missing second chunk parses to `NaN`). -/
def parseEncodedId (encodedId : EncodedId) : ParsedEncodedId :=
  let parts := jsSplitOnChar '-' encodedId
  { frameIndex := parseIntDec (parts.headD [])
    backendNodeId :=
      match parts.drop 1 with
      | [] => none
      | p :: _ => parseIntDec p }

/-- Embeds `createEncodedId` (utils.ts lines 216–221):
`` `${frameIndex}-${backendNodeId}` ``. -/
def createEncodedId (frameIndex : Nat) (backendNodeId : Nat) : EncodedId :=
  natRepr frameIndex ++ '-' :: natRepr backendNodeId

/-- The wire format `^\d+-\d+$` with no leading zeros in either component:
two canonical decimal components joined by a single dash (a dash is not a
digit, so the decomposition also rules out further dashes). -/
def matchesWireFormat (e : EncodedId) : Prop :=
  ∃ a b, e = a ++ '-' :: b ∧ canonicalNumStr a ∧ canonicalNumStr b

theorem jsSplitOnChar_ne_nil (sep : Char) (s : List Char) :
    jsSplitOnChar sep s ≠ [] := by
  cases s with
  | nil => simp [jsSplitOnChar]
  | cons c rest =>
    rw [jsSplitOnChar]
    split <;> split <;> simp

theorem jsSplitOnChar_no_sep {sep : Char} {s : List Char}
    (h : ∀ c ∈ s, c ≠ sep) : jsSplitOnChar sep s = [s] := by
  induction s with
  | nil => rfl
  | cons c rest ih =>
    rw [jsSplitOnChar]
    rw [ih (fun x hx => h x (List.mem_cons_of_mem c hx))]
    simp [h c (by simp)]

theorem jsSplitOnChar_append {sep : Char} {a b : List Char}
    (h : ∀ c ∈ a, c ≠ sep) :
    jsSplitOnChar sep (a ++ sep :: b) = a :: jsSplitOnChar sep b := by
  induction a with
  | nil =>
    show jsSplitOnChar sep (sep :: b) = [] :: jsSplitOnChar sep b
    rw [jsSplitOnChar]
    cases hb : jsSplitOnChar sep b with
    | nil => exact absurd hb (jsSplitOnChar_ne_nil sep b)
    | cons h t => simp
  | cons c rest ih =>
    have hc : c ≠ sep := h c (by simp)
    rw [List.cons_append, jsSplitOnChar,
      ih (fun x hx => h x (List.mem_cons_of_mem c hx))]
    simp [hc]

theorem digit_ne_dash {c : Char} (h : isDigitChar c = true) : c ≠ '-' := by
  intro hc
  rw [hc] at h
  simp [isDigitChar] at h

theorem parseIntDec_canonical {s : List Char} (h : canonicalNumStr s) :
    parseIntDec s = some (digitsToNat s) := by
  obtain ⟨hne, hdig, _⟩ := h
  have htake : s.takeWhile isDigitChar = s := List.takeWhile_eq_self_iff.mpr hdig
  rw [parseIntDec]
  cases hs : s.takeWhile isDigitChar with
  | nil => rw [htake] at hs; exact absurd hs hne
  | cons x u => rw [htake] at hs; rw [hs]

/-- C9 helper: parsing a wire-format string recovers both components. -/
theorem parseEncodedId_wire {a b : List Char} (ha : canonicalNumStr a)
    (hb : canonicalNumStr b) :
    parseEncodedId (a ++ '-' :: b) =
      { frameIndex := some (digitsToNat a), backendNodeId := some (digitsToNat b) } := by
  have hsplit : jsSplitOnChar '-' (a ++ '-' :: b) = a :: [b] := by
    rw [jsSplitOnChar_append (fun c hc => digit_ne_dash (ha.2.1 c hc))]
    rw [jsSplitOnChar_no_sep (fun c hc => digit_ne_dash (hb.2.1 c hc))]
  rw [parseEncodedId]
  simp only [hsplit]
  simp [parseIntDec_canonical ha, parseIntDec_canonical hb]

/-- C9: for every string `e` matching `^\d+-\d+$` with no leading zeros in
either component, `parseEncodedId e` yields numeric `frameIndex` and
`backendNodeId`, and `createEncodedId` rebuilds exactly `e`. -/
theorem encodedId_roundtrip (e : EncodedId) (h : matchesWireFormat e) :
    ∃ f n, parseEncodedId e = { frameIndex := some f, backendNodeId := some n } ∧
      createEncodedId f n = e := by
  obtain ⟨a, b, he, ha, hb⟩ := h
  refine ⟨digitsToNat a, digitsToNat b, ?_, ?_⟩
  · rw [he]
    exact parseEncodedId_wire ha hb
  · rw [createEncodedId, natRepr_digitsToNat ha, natRepr_digitsToNat hb, he]

/-- C9 witness: the theorem applied at the concrete wire string "3-17". -/
theorem encodedId_roundtrip_witness :
    ∃ f n,
      parseEncodedId ['3', '-', '1', '7'] =
        { frameIndex := some f, backendNodeId := some n } ∧
      createEncodedId f n = ['3', '-', '1', '7'] :=
  encodedId_roundtrip ['3', '-', '1', '7']
    ⟨['3'], ['1', '7'], rfl,
      ⟨by decide, by decide, by decide⟩, ⟨by decide, by decide, by decide⟩⟩

/-! ## Association lists

JS `Map` objects in insertion order: `aget` is `Map.get`, `aset` is
`Map.set` (update in place, else append), `aerase` is `Map.delete`. -/

/-- Lookup of the first binding of a key. -/
def aget {κ α : Type} [DecidableEq κ] : List (κ × α) → κ → Option α
  | [], _ => none
  | (k, v) :: rest, key => if k = key then some v else aget rest key

/-- Insert-or-update preserving insertion order. -/
def aset {κ α : Type} [DecidableEq κ] : List (κ × α) → κ → α → List (κ × α)
  | [], key, val => [(key, val)]
  | (k, v) :: rest, key, val =>
    if k = key then (k, val) :: rest else (k, v) :: aset rest key val

/-- Remove the bindings of a key. -/
def aerase {κ α : Type} [DecidableEq κ] (l : List (κ × α)) (key : κ) :
    List (κ × α) :=
  l.filter (fun kv => kv.1 ≠ key)

theorem aget_aset_self {κ α : Type} [DecidableEq κ] (l : List (κ × α))
    (k : κ) (v : α) : aget (aset l k v) k = some v := by
  induction l with
  | nil => simp [aset, aget]
  | cons kv rest ih =>
    obtain ⟨k0, v0⟩ := kv
    rw [aset]
    by_cases h : k0 = k
    · simp [h, aget]
    · simp [h, aget, ih]

theorem aget_aset_ne {κ α : Type} [DecidableEq κ] (l : List (κ × α))
    {k k2 : κ} (v : α) (h : k2 ≠ k) : aget (aset l k v) k2 = aget l k2 := by
  have hk : ¬ k = k2 := fun hh => h hh.symm
  induction l with
  | nil => simp [aset, aget, hk]
  | cons kv rest ih =>
    obtain ⟨k0, v0⟩ := kv
    rw [aset]
    by_cases h0 : k0 = k
    · subst h0
      simp [aget, hk]
    · simp [h0, aget, ih]

theorem aget_aerase {κ α : Type} [DecidableEq κ] (l : List (κ × α))
    (k k2 : κ) : aget (aerase l k) k2 = if k2 = k then none else aget l k2 := by
  induction l with
  | nil => simp [aerase, aget]
  | cons kv rest ih =>
    obtain ⟨k0, v0⟩ := kv
    by_cases hk : k0 = k
    · subst hk
      have he : aerase ((k0, v0) :: rest) k0 = aerase rest k0 := by
        simp [aerase]
      rw [he, ih]
      by_cases h2 : k2 = k0
      · simp [h2]
      · have hne : ¬ k0 = k2 := fun hh => h2 hh.symm
        simp [h2, aget, hne]
    · have he : aerase ((k0, v0) :: rest) k = (k0, v0) :: aerase rest k := by
        simp [aerase, hk]
      rw [he, aget, ih]
      by_cases h2 : k2 = k
      · have hne : ¬ k0 = k2 := fun hh => hk (hh.trans h2)
        simp [h2, hne, hk]
      · simp [h2, aget]

theorem aerase_length_le {κ α : Type} [DecidableEq κ] (l : List (κ × α))
    (k : κ) : (aerase l k).length ≤ l.length :=
  List.length_filter_le _ l

theorem aerase_length_lt {κ α : Type} [DecidableEq κ] {l : List (κ × α)}
    {k : κ} {v : α} (h : aget l k = some v) :
    (aerase l k).length < l.length := by
  induction l with
  | nil => simp [aget] at h
  | cons kv rest ih =>
    obtain ⟨k0, v0⟩ := kv
    rw [aget] at h
    by_cases h0 : k0 = k
    · subst h0
      simp only [aerase, List.filter, decide_not]
      simp
      calc (List.filter (fun kv => !decide (kv.1 = k0)) rest).length
          ≤ rest.length := List.length_filter_le _ rest
        _ < rest.length + 1 := by omega
    · simp [h0] at h
      have := ih h
      simp only [aerase, List.filter, decide_not] at this ⊢
      simp [h0]
      omega

/-! ## Frame Graph

Source: `src/cdp/frame-graph.ts` (provided as an unnamed source file):
`FrameRecord`, `FrameGraph` with `upsertFrame`, `removeFrame`,
`assignFrameIndex`, `getFrame`, `getFrameIndex`, `getFrameIdByIndex`.
Frame ids and session ids are JS strings, embedded as `List Char`. -/

/-- A frame id (CDP-assigned opaque string). -/
abbrev FrameId := List Char

/-- Embeds the `FrameRecord` interface of frame-graph.ts. -/
structure FrameRecord where
  frameId : FrameId
  parentFrameId : Option FrameId
  loaderId : Option (List Char) := none
  name : Option (List Char) := none
  url : Option (List Char) := none
  sessionId : Option (List Char) := none
  executionContextId : Option Nat := none
  isolatedWorldId : Option Nat := none
  backendNodeId : Option Nat := none
  iframeEncodedId : Option EncodedId := none
  lastUpdated : Nat
deriving Repr, DecidableEq

/-- Embeds the private state of class `FrameGraph`: the four maps
`frames`, `children`, `frameIndexMap` and `frameIdToIndex`.  The
`children` map is keyed by `string | null` (parent frame id). -/
structure FrameGraph where
  frames : List (FrameId × FrameRecord) := []
  children : List (Option FrameId × List FrameId) := []
  frameIndexMap : List (Nat × FrameId) := []
  frameIdToIndex : List (FrameId × Nat) := []
deriving Repr, DecidableEq

namespace FrameGraph

/-- A fresh graph (all maps empty), as built by the constructor. -/
def empty : FrameGraph := {}

/-- Embeds `getFrame`. -/
def getFrame (g : FrameGraph) (frameId : FrameId) : Option FrameRecord :=
  aget g.frames frameId

/-- Embeds `getFrameIndex`. -/
def getFrameIndex (g : FrameGraph) (frameId : FrameId) : Option Nat :=
  aget g.frameIdToIndex frameId

/-- Embeds `getFrameIdByIndex`. -/
def getFrameIdByIndex (g : FrameGraph) (index : Nat) : Option FrameId :=
  aget g.frameIndexMap index

/-- Embeds the private helper `updateParentRelation`. -/
def updateParentRelation (g : FrameGraph) (frameId : FrameId)
    (prevParent nextParent : Option FrameId) : FrameGraph :=
  if prevParent = nextParent then g
  else
    let prevChildren := (aget g.children prevParent).getD []
    let children1 :=
      if prevChildren.length ≠ 0 then
        aset g.children prevParent (prevChildren.filter (fun id => id ≠ frameId))
      else g.children
    let list := (aget children1 nextParent).getD []
    let list2 := if frameId ∈ list then list else list ++ [frameId]
    { g with children := aset children1 nextParent list2 }

/-- Input shape of `upsertFrame`:
`Omit<FrameRecord, "lastUpdated"> & \x7b lastUpdated?: number \x7d`. -/
structure UpsertInput where
  frameId : FrameId
  parentFrameId : Option FrameId
  loaderId : Option (List Char) := none
  name : Option (List Char) := none
  url : Option (List Char) := none
  sessionId : Option (List Char) := none
  executionContextId : Option Nat := none
  isolatedWorldId : Option Nat := none
  backendNodeId : Option Nat := none
  iframeEncodedId : Option EncodedId := none
  lastUpdated : Option Nat := none
deriving Repr, DecidableEq

/-- Embeds `upsertFrame` (the source reads `Date.now()` when the input has
no `lastUpdated`; the clock value is the extra `now` argument). -/
def upsertFrame (g : FrameGraph) (record : UpsertInput) (now : Nat) :
    FrameGraph × FrameRecord :=
  let existing := aget g.frames record.frameId
  let lastUpdated := record.lastUpdated.getD now
  let merged : FrameRecord :=
    { frameId := record.frameId
      parentFrameId := record.parentFrameId
      loaderId := record.loaderId.orElse fun _ => existing.bind (·.loaderId)
      name := record.name.orElse fun _ => existing.bind (·.name)
      url := record.url.orElse fun _ => existing.bind (·.url)
      sessionId := record.sessionId.orElse fun _ => existing.bind (·.sessionId)
      executionContextId :=
        record.executionContextId.orElse fun _ =>
          existing.bind (·.executionContextId)
      isolatedWorldId :=
        record.isolatedWorldId.orElse fun _ => existing.bind (·.isolatedWorldId)
      backendNodeId :=
        record.backendNodeId.orElse fun _ => existing.bind (·.backendNodeId)
      iframeEncodedId :=
        record.iframeEncodedId.orElse fun _ => existing.bind (·.iframeEncodedId)
      lastUpdated := lastUpdated }
  let g1 := { g with frames := aset g.frames merged.frameId merged }
  let g2 := updateParentRelation g1 merged.frameId
    ((existing.map (·.parentFrameId)).getD none) merged.parentFrameId
  (g2, merged)

/-- Embeds `assignFrameIndex` (frame-graph.ts lines 86–89): both maps are
overwritten at their respective key, nothing else is cleaned up. -/
def assignFrameIndex (g : FrameGraph) (frameId : FrameId) (index : Nat) :
    FrameGraph :=
  { g with
    frameIndexMap := aset g.frameIndexMap index frameId
    frameIdToIndex := aset g.frameIdToIndex frameId index }

/-- Embeds `removeFrame` (frame-graph.ts lines 65–84).  The JS recursion
terminates because every recursive call happens after its frame record has
been deleted; the embedding carries explicit fuel, and `removeFrame` below
instantiates it with `frames.length + 1`, which the termination argument
shows is always sufficient. -/
def removeFrameFuel : Nat → FrameGraph → FrameId → FrameGraph
  | 0, g, _ => g
  | fuel + 1, g, frameId =>
    match aget g.frames frameId with
    | none => g
    | some record =>
      let frames1 := aerase g.frames frameId
      let children1 :=
        match aget g.children record.parentFrameId with
        | some parentChildren =>
          aset g.children record.parentFrameId
            (parentChildren.filter (fun id => id ≠ frameId))
        | none => g.children
      let maps :=
        match aget g.frameIdToIndex frameId with
        | some index =>
          (aerase g.frameIndexMap index, aerase g.frameIdToIndex frameId)
        | none => (g.frameIndexMap, g.frameIdToIndex)
      let childIds := (aget children1 (some frameId)).getD []
      let children2 := aerase children1 (some frameId)
      let g1 : FrameGraph :=
        { frames := frames1, children := children2,
          frameIndexMap := maps.1, frameIdToIndex := maps.2 }
      childIds.foldl (fun acc childId => removeFrameFuel fuel acc childId) g1

/-- Entry point of the embedded `removeFrame`. -/
def removeFrame (g : FrameGraph) (frameId : FrameId) : FrameGraph :=
  removeFrameFuel (g.frames.length + 1) g frameId

end FrameGraph

/-! ## Frame Context Manager

Source: `src/cdp/frame-context-manager.ts` (provided as part of
src/src/index.ts): the slice of `FrameContextManager` state and operations
that the claims exercise. -/

/-- An opaque CDP session handle. -/
abbrev SessionId := Nat

/-- Embeds the `FrameContextManager` fields the claims touch: the graph,
the per-frame session map, the frameId → executionContextId map and its
inverse, and the preliminary index counter. -/
structure FrameContextManager where
  graph : FrameGraph := {}
  sessions : List (FrameId × SessionId) := []
  frameExecutionContexts : List (FrameId × Nat) := []
  executionContextToFrame : List (Nat × FrameId) := []
  nextFrameIndex : Nat := 0
deriving Repr, DecidableEq

namespace FrameContextManager

/-- Embeds `FrameContextManager.removeFrame` (index.ts lines 107–110):
delegate to the graph, then drop this frame id from the session map. -/
def removeFrame (m : FrameContextManager) (frameId : FrameId) :
    FrameContextManager :=
  { m with
    graph := m.graph.removeFrame frameId
    sessions := aerase m.sessions frameId }

/-- Embeds `FrameContextManager.assignFrameIndex` (index.ts lines
112–117): delegate to the graph and bump the preliminary counter. -/
def assignFrameIndex (m : FrameContextManager) (frameId : FrameId)
    (index : Nat) : FrameContextManager :=
  let m1 := { m with graph := m.graph.assignFrameIndex frameId index }
  if index ≥ m1.nextFrameIndex then { m1 with nextFrameIndex := index + 1 }
  else m1

/-- Embeds `handlePageFrameDetached` (index.ts lines 583–592): a no-op for
unknown frames, otherwise `removeFrame`. -/
def handlePageFrameDetached (m : FrameContextManager) (frameId : FrameId) :
    FrameContextManager :=
  match aget m.graph.frames frameId with
  | none => m
  | some _ => m.removeFrame frameId

/-- Embeds `getExecutionContextId`. -/
def getExecutionContextId (m : FrameContextManager) (frameId : FrameId) :
    Option Nat :=
  aget m.frameExecutionContexts frameId

end FrameContextManager

/-! ## C2: uniqueness of frameIndex values -/

/-- Replay of a sequence of `assignFrameIndex` calls against the graph. -/
def assignAll (g : FrameGraph) : List (FrameId × Nat) → FrameGraph
  | [] => g
  | (fid, i) :: rest => assignAll (g.assignFrameIndex fid i) rest

theorem assignAll_frames (g : FrameGraph) (calls : List (FrameId × Nat)) :
    (assignAll g calls).frames = g.frames := by
  induction calls generalizing g with
  | nil => rfl
  | cons c rest ih =>
    obtain ⟨fid, i⟩ := c
    rw [assignAll, ih]
    rfl

theorem assignAll_index_source (g : FrameGraph)
    (calls : List (FrameId × Nat)) (f : FrameId) (i : Nat)
    (h : aget (assignAll g calls).frameIdToIndex f = some i) :
    (f, i) ∈ calls ∨ aget g.frameIdToIndex f = some i := by
  induction calls generalizing g with
  | nil => exact Or.inr h
  | cons c rest ih =>
    obtain ⟨fid, j⟩ := c
    rw [assignAll] at h
    rcases ih _ h with hmem | hbase
    · exact Or.inl (List.mem_cons_of_mem _ hmem)
    · by_cases hf : f = fid
      · subst hf
        rw [FrameGraph.assignFrameIndex] at hbase
        simp only at hbase
        rw [aget_aset_self] at hbase
        injection hbase with hji
        subst hji
        exact Or.inl (by simp)
      · rw [FrameGraph.assignFrameIndex] at hbase
        simp only at hbase
        rw [aget_aset_ne _ _ hf] at hbase
        exact Or.inr hbase

/-- Two-frame base graph used by C2: frames "a" and "b" upserted into an
empty graph, no index assigned yet. -/
def twoFrameGraph : FrameGraph :=
  ((FrameGraph.empty.upsertFrame
    { frameId := ['a'], parentFrameId := none } 0).1.upsertFrame
    { frameId := ['b'], parentFrameId := none } 0).1

/-- C2 counterexample: starting from a graph holding two frames "a" and
"b", the call sequence `assignFrameIndex("a", 1); assignFrameIndex("b", 1)`
— an authoritative overwrite that reassigns index 1, already held by "a",
to "b" — leaves two distinct frame records that both report frameIndex 1,
because the stale `frameIdToIndex` entry of "a" is never cleaned up. -/
theorem assignFrameIndex_unique_counterexample :
    let m0 : FrameContextManager := { graph := twoFrameGraph }
    let m2 := (m0.assignFrameIndex ['a'] 1).assignFrameIndex ['b'] 1
    m2.graph.getFrame ['a'] =
      some { frameId := ['a'], parentFrameId := none, lastUpdated := 0 } ∧
    m2.graph.getFrame ['b'] =
      some { frameId := ['b'], parentFrameId := none, lastUpdated := 0 } ∧
    m2.graph.getFrameIndex ['a'] = some 1 ∧
    m2.graph.getFrameIndex ['b'] = some 1 ∧
    ({ frameId := ['a'], parentFrameId := none, lastUpdated := 0 } : FrameRecord) ≠
      { frameId := ['b'], parentFrameId := none, lastUpdated := 0 } := by
  exact ⟨by decide, by decide, by decide, by decide, by decide⟩

/-- C2 amended: frameIndex values are unique after every sequence of
`assignFrameIndex` calls in which no index is assigned to two distinct
frames.  (The counterexample above shows that an authoritative overwrite
that hands an index already held by one frame to another breaks
uniqueness, because the overwritten frame keeps its stale reverse-map
entry.) -/
theorem assignFrameIndex_unique_of_conflict_free
    (g0 : FrameGraph) (h0 : g0.frameIdToIndex = [])
    (calls : List (FrameId × Nat))
    (hcf : ∀ f1 f2 i, (f1, i) ∈ calls → (f2, i) ∈ calls → f1 = f2)
    (X Y : FrameRecord) (i : Nat)
    (hX : (assignAll g0 calls).getFrame X.frameId = some X)
    (hY : (assignAll g0 calls).getFrame Y.frameId = some Y)
    (hXi : (assignAll g0 calls).getFrameIndex X.frameId = some i)
    (hYi : (assignAll g0 calls).getFrameIndex Y.frameId = some i) :
    X = Y := by
  have hXc := assignAll_index_source g0 calls _ _ hXi
  have hYc := assignAll_index_source g0 calls _ _ hYi
  rw [h0] at hXc hYc
  simp [aget] at hXc hYc
  have hid : X.frameId = Y.frameId := hcf _ _ i hXc hYc
  rw [FrameGraph.getFrame, hid] at hX
  rw [FrameGraph.getFrame] at hY
  rw [hX] at hY
  exact Option.some_injective _ hY

/-- C2 amended witness: on the two-frame graph with the conflict-free call
sequence assigning index 1 to "a" and index 2 to "b", the uniqueness
theorem applies at index 1. -/
theorem assignFrameIndex_unique_witness :
    (assignAll twoFrameGraph [(['a'], 1), (['b'], 2)]).getFrame ['a']
        = some { frameId := ['a'], parentFrameId := none, lastUpdated := 0 } ∧
    ({ frameId := ['a'], parentFrameId := none, lastUpdated := 0 } : FrameRecord) =
      { frameId := ['a'], parentFrameId := none, lastUpdated := 0 } := by
  have h0 : twoFrameGraph.frameIdToIndex = [] := by decide
  have hcf : ∀ f1 f2 i, (f1, i) ∈ ([(['a'], 1), (['b'], 2)] : List (FrameId × Nat)) →
      (f2, i) ∈ ([(['a'], 1), (['b'], 2)] : List (FrameId × Nat)) → f1 = f2 := by
    intro f1 f2 i h1 h2
    simp at h1 h2
    rcases h1 with ⟨hf1, hi1⟩ | ⟨hf1, hi1⟩ <;>
      rcases h2 with ⟨hf2, hi2⟩ | ⟨hf2, hi2⟩ <;> simp_all
  refine ⟨by decide, ?_⟩
  exact assignFrameIndex_unique_of_conflict_free twoFrameGraph h0 _ hcf
    { frameId := ['a'], parentFrameId := none, lastUpdated := 0 }
    { frameId := ['a'], parentFrameId := none, lastUpdated := 0 } 1
    (by decide) (by decide) (by decide) (by decide)

/-! ## C4: frameDetached removes the subtree but not execution contexts -/

/-- Children list of a frame id: the entries of the `children` map under
key `some p`, defaulting to the empty list. -/
def childList (g : FrameGraph) (p : FrameId) : List FrameId :=
  (aget g.children (some p)).getD []

/-- Frames reachable from `root` through parent-to-child edges whose
source frame still has a record — the descendants that the recursive
`removeFrame` walk can visit. -/
inductive Reaches (g : FrameGraph) (root : FrameId) : FrameId → Prop
  | refl : Reaches g root root
  | step {p d : FrameId} : Reaches g root p → aget g.frames p ≠ none →
      d ∈ childList g p → Reaches g root d

/-- Fold of `removeFrameFuel` over a list of frame ids, as the recursive
call of `removeFrame` performs over the captured child ids. -/
def removeList (fuel : Nat) (g : FrameGraph) (ids : List FrameId) :
    FrameGraph :=
  ids.foldl (fun acc childId => FrameGraph.removeFrameFuel fuel acc childId) g

/-- The `children` map after the filtering step of `removeFrame` (the
parent's list loses `frameId`). -/
def stepChildren1 (g : FrameGraph) (frameId : FrameId)
    (record : FrameRecord) : List (Option FrameId × List FrameId) :=
  match aget g.children record.parentFrameId with
  | some parentChildren =>
    aset g.children record.parentFrameId
      (parentChildren.filter (fun id => id ≠ frameId))
  | none => g.children

/-- The two index maps after the index-release step of `removeFrame`. -/
def stepMaps (g : FrameGraph) (frameId : FrameId) :
    List (Nat × FrameId) × List (FrameId × Nat) :=
  match aget g.frameIdToIndex frameId with
  | some index =>
    (aerase g.frameIndexMap index, aerase g.frameIdToIndex frameId)
  | none => (g.frameIndexMap, g.frameIdToIndex)

/-- The child ids captured by `removeFrame` before recursing. -/
def stepChildIds (g : FrameGraph) (frameId : FrameId)
    (record : FrameRecord) : List FrameId :=
  (aget (stepChildren1 g frameId record) (some frameId)).getD []

/-- The graph state after the non-recursive part of `removeFrame`. -/
def stepState (g : FrameGraph) (frameId : FrameId) (record : FrameRecord) :
    FrameGraph :=
  { frames := aerase g.frames frameId
    children := aerase (stepChildren1 g frameId record) (some frameId)
    frameIndexMap := (stepMaps g frameId).1
    frameIdToIndex := (stepMaps g frameId).2 }

theorem removeList_cons (fuel : Nat) (g : FrameGraph) (c : FrameId)
    (rest : List FrameId) :
    removeList fuel g (c :: rest) =
      removeList fuel (FrameGraph.removeFrameFuel fuel g c) rest := rfl

theorem removeFrameFuel_succ_eq {g : FrameGraph} {fid : FrameId}
    {record : FrameRecord} (hr : aget g.frames fid = some record) (n : Nat) :
    FrameGraph.removeFrameFuel (n + 1) g fid =
      removeList n (stepState g fid record) (stepChildIds g fid record) := by
  rw [FrameGraph.removeFrameFuel, hr]
  rfl

theorem aget_some_length_pos {κ α : Type} [DecidableEq κ]
    {l : List (κ × α)} {k : κ} {v : α} (h : aget l k = some v) :
    0 < l.length := by
  cases l with
  | nil => simp [aget] at h
  | cons kv rest => simp

theorem stepChildren1_eq_some {g : FrameGraph} {fid : FrameId}
    {record : FrameRecord} {pc : List FrameId}
    (hpc : aget g.children record.parentFrameId = some pc) :
    stepChildren1 g fid record =
      aset g.children record.parentFrameId
        (pc.filter (fun id => id ≠ fid)) := by
  rw [stepChildren1, hpc]

theorem stepChildren1_eq_none {g : FrameGraph} {fid : FrameId}
    {record : FrameRecord}
    (hpc : aget g.children record.parentFrameId = none) :
    stepChildren1 g fid record = g.children := by
  rw [stepChildren1, hpc]

/-- Any original child of a frame is, after the non-recursive part of the
removal, still listed under its parent — unless the child is the removed
frame itself. -/
theorem mem_stepChildren1 (g : FrameGraph) (fid : FrameId)
    (record : FrameRecord) {p d : FrameId} (hd : d ∈ childList g p)
    (hdfid : d ≠ fid) :
    d ∈ (aget (stepChildren1 g fid record) (some p)).getD [] := by
  cases hpc : aget g.children record.parentFrameId with
  | none =>
    rw [stepChildren1_eq_none hpc]
    exact hd
  | some pc =>
    rw [stepChildren1_eq_some hpc]
    by_cases hkey : record.parentFrameId = some p
    · rw [hkey] at hpc ⊢
      rw [aget_aset_self]
      rw [childList, hpc] at hd
      simp only [Option.getD_some] at hd ⊢
      rw [List.mem_filter]
      exact ⟨hd, by simp [hdfid]⟩
    · rw [aget_aset_ne _ _ (fun hh => hkey hh.symm)]
      exact hd

/-- Frames are never added back: a frame id absent from the graph stays
absent through any `removeFrameFuel` run. -/
theorem removeFrameFuel_frames_none :
    ∀ (fuel : Nat) (g : FrameGraph) (fid f : FrameId),
      aget g.frames f = none →
      aget (FrameGraph.removeFrameFuel fuel g fid).frames f = none := by
  intro fuel
  induction fuel with
  | zero => intro g fid f h; exact h
  | succ n ih =>
    intro g fid f h
    cases hr : aget g.frames fid with
    | none => rw [FrameGraph.removeFrameFuel, hr]; exact h
    | some record =>
      rw [removeFrameFuel_succ_eq hr]
      have hbase : aget (stepState g fid record).frames f = none := by
        rw [stepState]
        simp only
        rw [aget_aerase]
        split
        · rfl
        · exact h
      have hfold : ∀ (ids : List FrameId) (g2 : FrameGraph),
          aget g2.frames f = none →
          aget (removeList n g2 ids).frames f = none := by
        intro ids
        induction ids with
        | nil => intro g2 h2; exact h2
        | cons c rest ihl =>
          intro g2 h2
          rw [removeList_cons]
          exact ihl _ (ih _ _ _ h2)
      exact hfold _ _ hbase

/-- Absent frames stay absent through a fold of `removeFrameFuel` calls. -/
theorem removeList_frames_none (fuel : Nat) (ids : List FrameId)
    (g : FrameGraph) (f : FrameId) (h : aget g.frames f = none) :
    aget (removeList fuel g ids).frames f = none := by
  induction ids generalizing g with
  | nil => exact h
  | cons c rest ih =>
    rw [removeList_cons]
    exact ih _ (removeFrameFuel_frames_none _ _ _ _ h)

theorem stepState_self_none (g : FrameGraph) (fid : FrameId)
    (record : FrameRecord) :
    aget (stepState g fid record).frames fid = none := by
  rw [stepState]
  simp only
  rw [aget_aerase]
  simp

theorem stepState_frames_ne (g : FrameGraph) (fid : FrameId)
    (record : FrameRecord) {f : FrameId} (h : f ≠ fid) :
    aget (stepState g fid record).frames f = aget g.frames f := by
  rw [stepState]
  simp only
  rw [aget_aerase, if_neg h]

/-- A `removeFrameFuel` run with positive fuel deletes the record of the
frame it is called on (a no-op when the record is already absent). -/
theorem removeFrameFuel_removes_self (fuel : Nat) (g : FrameGraph)
    (fid : FrameId) :
    aget (FrameGraph.removeFrameFuel (fuel + 1) g fid).frames fid = none := by
  cases hr : aget g.frames fid with
  | none => rw [FrameGraph.removeFrameFuel, hr]; exact hr
  | some record =>
    rw [removeFrameFuel_succ_eq hr]
    exact removeList_frames_none _ _ _ _ (stepState_self_none g fid record)

/-- Every member of the fold list ends up removed (positive fuel). -/
theorem removeList_removes_members (fuel : Nat) (ids : List FrameId)
    (g : FrameGraph) (d : FrameId) (h : d ∈ ids) :
    aget (removeList (fuel + 1) g ids).frames d = none := by
  induction ids generalizing g with
  | nil => simp at h
  | cons c rest ih =>
    rw [removeList_cons]
    rcases List.mem_cons.mp h with hc | hrest
    · subst hc
      exact removeList_frames_none _ _ _ _ (removeFrameFuel_removes_self fuel g d)
    · exact ih _ hrest

/-- A removal run never grows the frame table. -/
theorem removeFrameFuel_length_le :
    ∀ (fuel : Nat) (g : FrameGraph) (fid : FrameId),
      (FrameGraph.removeFrameFuel fuel g fid).frames.length ≤
        g.frames.length := by
  intro fuel
  induction fuel with
  | zero => intro g fid; exact Nat.le_refl _
  | succ n ih =>
    intro g fid
    cases hr : aget g.frames fid with
    | none => rw [FrameGraph.removeFrameFuel, hr]
    | some record =>
      rw [removeFrameFuel_succ_eq hr]
      have hfold : ∀ (ids : List FrameId) (g2 : FrameGraph),
          (removeList n g2 ids).frames.length ≤ g2.frames.length := by
        intro ids
        induction ids with
        | nil => intro g2; exact Nat.le_refl _
        | cons c rest ihl =>
          intro g2
          rw [removeList_cons]
          exact Nat.le_trans (ihl _) (ih _ _)
      refine Nat.le_trans (hfold _ _) ?_
      rw [stepState]
      simp only
      exact aerase_length_le _ _

theorem removeList_length_le (fuel : Nat) (ids : List FrameId)
    (g : FrameGraph) :
    (removeList fuel g ids).frames.length ≤ g.frames.length := by
  induction ids generalizing g with
  | nil => exact Nat.le_refl _
  | cons c rest ih =>
    rw [removeList_cons]
    exact Nat.le_trans (ih _) (removeFrameFuel_length_le _ _ _)

theorem childList_stepState_ne (g : FrameGraph) (fid : FrameId)
    (record : FrameRecord) {p : FrameId} (hp : p ≠ fid) :
    childList (stepState g fid record) p =
      (aget (stepChildren1 g fid record) (some p)).getD [] := by
  rw [childList, stepState]
  simp only
  rw [aget_aerase, if_neg (by simp [hp])]

/-- Children lists only shrink by dropping removed frames: if `p` survives
a removal run, every original child of `p` either is still listed or has
itself been removed. -/
theorem removeFrameFuel_shrink :
    ∀ (fuel : Nat) (g : FrameGraph) (fid p d : FrameId),
      aget (FrameGraph.removeFrameFuel fuel g fid).frames p ≠ none →
      d ∈ childList g p →
      d ∈ childList (FrameGraph.removeFrameFuel fuel g fid) p ∨
        aget (FrameGraph.removeFrameFuel fuel g fid).frames d = none := by
  intro fuel
  induction fuel with
  | zero => intro g fid p d hp hd; exact Or.inl hd
  | succ n ih =>
    intro g fid p d hp hd
    cases hr : aget g.frames fid with
    | none => rw [FrameGraph.removeFrameFuel, hr] at hp ⊢; exact Or.inl hd
    | some record =>
      rw [removeFrameFuel_succ_eq hr] at hp ⊢
      by_cases hdfid : d = fid
      · subst hdfid
        exact Or.inr
          (removeList_frames_none _ _ _ _ (stepState_self_none g d record))
      · have hp1 : aget (stepState g fid record).frames p ≠ none := by
          intro hz
          exact hp (removeList_frames_none _ _ _ _ hz)
        have hpfid : p ≠ fid := by
          intro hpe
          subst hpe
          exact hp1 (stepState_self_none g p record)
        have hd1 : d ∈ childList (stepState g fid record) p := by
          rw [childList_stepState_ne g fid record hpfid]
          exact mem_stepChildren1 g fid record hd hdfid
        have hfold : ∀ (ids : List FrameId) (g2 : FrameGraph),
            aget (removeList n g2 ids).frames p ≠ none →
            d ∈ childList g2 p →
            d ∈ childList (removeList n g2 ids) p ∨
              aget (removeList n g2 ids).frames d = none := by
          intro ids
          induction ids with
          | nil => intro g2 hp2 hd2; exact Or.inl hd2
          | cons c rest ihl =>
            intro g2 hp2 hd2
            rw [removeList_cons] at hp2 ⊢
            have hpmid : aget (FrameGraph.removeFrameFuel n g2 c).frames p ≠ none := by
              intro hz
              exact hp2 (removeList_frames_none _ _ _ _ hz)
            rcases ih g2 c p d hpmid hd2 with hleft | hright
            · exact ihl _ hp2 hleft
            · exact Or.inr (removeList_frames_none _ _ _ _ hright)
        exact hfold _ _ hp hd1

/-- Closure of removal: when a removal run deletes a frame `p`, every
child that `p` had in the starting state is deleted as well (fuel bounded
below by the frame count, as `removeFrame` guarantees). -/
theorem removeFrameFuel_closure :
    ∀ (fuel : Nat) (g : FrameGraph) (fid p : FrameId),
      g.frames.length < fuel →
      aget g.frames p ≠ none →
      aget (FrameGraph.removeFrameFuel fuel g fid).frames p = none →
      ∀ d ∈ childList g p,
        aget (FrameGraph.removeFrameFuel fuel g fid).frames d = none := by
  intro fuel
  induction fuel with
  | zero => intro g fid p hlen; omega
  | succ n ih =>
    intro g fid p hlen hpin hpout d hd
    cases hr : aget g.frames fid with
    | none =>
      rw [FrameGraph.removeFrameFuel, hr] at hpout
      exact absurd hpout hpin
    | some record =>
      rw [removeFrameFuel_succ_eq hr] at hpout ⊢
      have hgpos : 0 < g.frames.length := aget_some_length_pos hr
      have hlen1 : (stepState g fid record).frames.length < n := by
        have := aerase_length_lt hr
        have hs : (stepState g fid record).frames.length =
            (aerase g.frames fid).length := rfl
        omega
      have hn : 0 < n := by omega
      by_cases hdfid : d = fid
      · subst hdfid
        exact removeList_frames_none _ _ _ _ (stepState_self_none g d record)
      · by_cases hpfid : p = fid
        · -- the removed frame itself: its children are exactly the
          -- captured child ids and the fold removes every one of them.
          subst hpfid
          have hdmem : d ∈ stepChildIds g p record := by
            rw [stepChildIds]
            exact mem_stepChildren1 g p record hd hdfid
          obtain ⟨m, hm⟩ := Nat.exists_eq_add_of_lt hn
          rw [hm]
          exact removeList_removes_members _ _ _ _ hdmem
        · have hpin1 : aget (stepState g fid record).frames p ≠ none := by
            rw [stepState_frames_ne g fid record hpfid]
            exact hpin
          have hd1 : d ∈ childList (stepState g fid record) p := by
            rw [childList_stepState_ne g fid record hpfid]
            exact mem_stepChildren1 g fid record hd hdfid
          -- fold closure across the captured child ids
          have hfold : ∀ (ids : List FrameId) (g2 : FrameGraph),
              g2.frames.length < n →
              aget g2.frames p ≠ none →
              aget (removeList n g2 ids).frames p = none →
              d ∈ childList g2 p →
              aget (removeList n g2 ids).frames d = none := by
            intro ids
            induction ids with
            | nil =>
              intro g2 hlen2 hp2 hp2out hd2
              exact absurd hp2out hp2
            | cons c rest ihl =>
              intro g2 hlen2 hp2 hp2out hd2
              rw [removeList_cons] at hp2out ⊢
              by_cases hmid :
                  aget (FrameGraph.removeFrameFuel n g2 c).frames p = none
              · have hdm := ih g2 c p hlen2 hp2 hmid d hd2
                exact removeList_frames_none _ _ _ _ hdm
              · rcases removeFrameFuel_shrink n g2 c p d hmid hd2 with
                  hleft | hright
                · refine ihl _ ?_ hmid hp2out hleft
                  exact Nat.lt_of_le_of_lt (removeFrameFuel_length_le n g2 c)
                    hlen2
                · exact removeList_frames_none _ _ _ _ hright
          exact hfold _ _ hlen1 hpin1 hpout hd1

/-- The embedded `removeFrame` deletes every frame reachable from its
argument through live parent-to-child edges. -/
theorem removeFrame_removes_reachable (g : FrameGraph) (fid : FrameId) :
    ∀ d, Reaches g fid d →
      aget (g.removeFrame fid).frames d = none := by
  intro d h
  induction h with
  | refl =>
    rw [FrameGraph.removeFrame]
    exact removeFrameFuel_removes_self _ g fid
  | step hreach hp hd ih =>
    rename_i p d2
    rw [FrameGraph.removeFrame] at ih ⊢
    exact removeFrameFuel_closure (g.frames.length + 1) g fid p
      (by omega) hp ih d2 hd

/-- C4 counterexample: a graph holding the single frame "a" with a stored
execution context id 7.  `handlePageFrameDetached("a")` removes the frame
record, but the frameId → executionContextId mapping survives: the handler
never touches `frameExecutionContexts`, contradicting the claim that the
stored execution-context ids of removed frames are released. -/
theorem handlePageFrameDetached_counterexample :
    let m : FrameContextManager :=
      { graph := (FrameGraph.empty.upsertFrame
          { frameId := ['a'], parentFrameId := none } 0).1
        frameExecutionContexts := [(['a'], 7)] }
    aget m.graph.frames ['a'] ≠ none ∧
    aget (m.handlePageFrameDetached ['a']).graph.frames ['a'] = none ∧
    (m.handlePageFrameDetached ['a']).getExecutionContextId ['a'] = some 7 := by
  exact ⟨by decide, by decide, by decide⟩

/-- C4 amended: handling `Page.frameDetached` for a frame that is in the
graph removes that frame's record and the records of all frames reachable
from it through live parent-to-child edges, but it does not release the
stored frameId → executionContextId mappings: `frameExecutionContexts` is
unchanged (those entries are only dropped by the
`Runtime.executionContextDestroyed` and `…Cleared` handlers). -/
theorem handlePageFrameDetached_removes_subtree
    (m : FrameContextManager) (fid : FrameId)
    (hin : aget m.graph.frames fid ≠ none) :
    (∀ d, Reaches m.graph fid d →
      aget (m.handlePageFrameDetached fid).graph.frames d = none) ∧
    (m.handlePageFrameDetached fid).frameExecutionContexts =
      m.frameExecutionContexts := by
  cases hr : aget m.graph.frames fid with
  | none => exact absurd hr hin
  | some record =>
    have hh : m.handlePageFrameDetached fid = m.removeFrame fid := by
      rw [FrameContextManager.handlePageFrameDetached, hr]
    rw [hh]
    constructor
    · intro d hd
      exact removeFrame_removes_reachable m.graph fid d hd
    · rfl

/-- C4 amended witness: frame "c" is a child of frame "a"; detaching "a"
removes the record of "c" while the execution-context entry of "c"
survives verbatim. -/
theorem handlePageFrameDetached_removes_subtree_witness :
    let m : FrameContextManager :=
      { graph := ((FrameGraph.empty.upsertFrame
          { frameId := ['a'], parentFrameId := none } 0).1.upsertFrame
          { frameId := ['c'], parentFrameId := some ['a'] } 0).1
        frameExecutionContexts := [(['c'], 5)] }
    aget m.graph.frames ['a'] ≠ none ∧
    aget (m.handlePageFrameDetached ['a']).graph.frames ['c'] = none ∧
    (m.handlePageFrameDetached ['a']).frameExecutionContexts =
      m.frameExecutionContexts := by
  intro m
  have happ := handlePageFrameDetached_removes_subtree m ['a'] (by decide)
  refine ⟨by decide, ?_, happ.2⟩
  exact happ.1 ['c'] (Reaches.step Reaches.refl (by decide) (by decide))

/-! ## C7: snapshot cache invalidation

Source: `src/context-providers/a11y-dom/dom-cache.ts` (class
`DomSnapshotCache`, `markDomSnapshotDirty`) and the post-action step of
`runAgentTask` (unnamed agent source, `READ_ONLY_ACTIONS` and the
`markDomSnapshotDirty(page)` call right after `runAction` returns).
The three per-page WeakMaps are modelled from the point of view of one
page; `Date.now()` becomes an explicit `now` argument. -/

/-- dom-cache.ts: `MAX_CACHE_AGE_MS = 1000`. -/
def MAX_CACHE_AGE_MS : Nat := 1000

/-- dom-cache.ts: `DomCacheEntry`. -/
structure DomCacheEntry (σ : Type) where
  state : σ
  timestamp : Nat
  version : Nat
deriving Repr, DecidableEq

/-- dom-cache.ts: the `DomSnapshotCache` state for one page — its
`entries` slot, its `versions` counter (`?? 0`) and its `dirty` flag. -/
structure DomSnapshotCache (σ : Type) where
  entry : Option (DomCacheEntry σ) := none
  version : Nat := 0
  dirty : Bool := false
deriving Repr, DecidableEq

namespace DomSnapshotCache

/-- Embeds `invalidate` (also exported as `markDomSnapshotDirty`). -/
def invalidate {σ : Type} (c : DomSnapshotCache σ) : DomSnapshotCache σ :=
  { entry := none, version := c.version + 1, dirty := true }

/-- Embeds `get`; returns the served state (or `null`) with the updated
cache (the stale branch calls `invalidate` before returning `null`). -/
def get {σ : Type} (c : DomSnapshotCache σ) (now : Nat) :
    Option σ × DomSnapshotCache σ :=
  if c.dirty then (none, c)
  else
    match c.entry with
    | none => (none, c)
    | some e =>
      if now - e.timestamp > MAX_CACHE_AGE_MS then (none, c.invalidate)
      else (some e.state, c)

/-- Embeds `set`: bump the version, store the entry, clear dirtiness. -/
def set {σ : Type} (c : DomSnapshotCache σ) (state : σ) (now : Nat) :
    DomSnapshotCache σ :=
  let version := c.version + 1
  { entry := some { state := state, timestamp := now, version := version }
    version := version
    dirty := false }

end DomSnapshotCache

/-- The agent loop's read-only action types (unnamed agent source:
`READ_ONLY_ACTIONS = new Set(["wait", "extract", "complete"])`). -/
def READ_ONLY_ACTIONS : List (List Char) :=
  ["wait".toList, "extract".toList, "complete".toList]

/-- Embeds the post-action cache step of `runAgentTask`: immediately after
`runAction` returns (success or not), `markDomSnapshotDirty(page)` runs
for every non-read-only action type, before the loop proceeds. -/
def runAgentTaskCacheStep {σ : Type} (actionType : List Char)
    (cache : DomSnapshotCache σ) : DomSnapshotCache σ :=
  if READ_ONLY_ACTIONS.contains actionType then cache else cache.invalidate

/-- C7: after any action of a mutating (non-read-only) type — successful
ones included — the per-page snapshot cache is dirty before control
returns; a dirty read misses and leaves the cache dirty; a read of an
entry more than `MAX_CACHE_AGE_MS` old misses; and only a fresh `set`
clears the dirty flag (storing the new snapshot). -/
theorem executeAction_marks_snapshot_dirty {σ : Type}
    (actionType : List Char) (c : DomSnapshotCache σ)
    (hmut : READ_ONLY_ACTIONS.contains actionType = false) :
    (runAgentTaskCacheStep actionType c).dirty = true ∧
    (∀ (c2 : DomSnapshotCache σ) (now : Nat), c2.dirty = true →
      (c2.get now).1 = none ∧ (c2.get now).2.dirty = true) ∧
    (∀ (c2 : DomSnapshotCache σ) (e : DomCacheEntry σ) (now : Nat),
      c2.entry = some e → now - e.timestamp > MAX_CACHE_AGE_MS →
      (c2.get now).1 = none) ∧
    (∀ (s : σ) (now : Nat),
      ((runAgentTaskCacheStep actionType c).set s now).dirty = false ∧
      ((runAgentTaskCacheStep actionType c).set s now).entry =
        some { state := s, timestamp := now,
               version := (runAgentTaskCacheStep actionType c).version + 1 }) := by
  refine ⟨?_, ?_, ?_, ?_⟩
  · rw [runAgentTaskCacheStep, hmut]
    simp [DomSnapshotCache.invalidate]
  · intro c2 now h2
    rw [DomSnapshotCache.get, h2]
    simp
    exact h2
  · intro c2 e now he hage
    rw [DomSnapshotCache.get]
    by_cases hdirty : c2.dirty
    · simp [hdirty]
    · simp [hdirty, he, hage]
  · intro s now
    exact ⟨rfl, rfl⟩

/-- C7 witness: a fresh cache holding a snapshot stored at time 0; a
"click" action dirties it, the dirty read at time 1 misses, a read of the
same entry at time 1002 would miss by age, and a fresh store at time 1002
clears the dirty flag. -/
theorem executeAction_marks_snapshot_dirty_witness :
    READ_ONLY_ACTIONS.contains "click".toList = false ∧
    (runAgentTaskCacheStep "click".toList
      (DomSnapshotCache.set {} 7 0)).dirty = true ∧
    ((runAgentTaskCacheStep "click".toList
      (DomSnapshotCache.set (σ := Nat) {} 7 0)).get 1).1 = none ∧
    ((DomSnapshotCache.set (σ := Nat) {} 7 0).get 1002).1 = none ∧
    ((runAgentTaskCacheStep "click".toList
      (DomSnapshotCache.set (σ := Nat) {} 7 0)).set 9 1002).dirty = false := by
  have happ := executeAction_marks_snapshot_dirty "click".toList
    (DomSnapshotCache.set (σ := Nat) {} 7 0) (by decide)
  refine ⟨by decide, happ.1, (happ.2.1 _ 1 happ.1).1, ?_, (happ.2.2.2 9 1002).1⟩
  exact happ.2.2.1 (DomSnapshotCache.set {} 7 0)
    { state := 7, timestamp := 0, version := 1 } 1002 (by decide) (by decide)

/-! ## Accessibility-DOM data model

Source: `src/context-providers/a11y-dom/types.ts` — the slices of
`AXNode`, `AccessibilityNode`, `IframeInfo` and `A11yDOMState` that the
embedded functions read.  The raw CDP `role`/`name`/`value` wrappers
(`\x7b value \x7d` objects) are flattened to their `value` field. -/

/-- Raw CDP accessibility node (types.ts `AXNode`), with `role.value`,
`name.value` … flattened. -/
structure AXNode where
  nodeId : Option Int := none
  role : Option (List Char) := none
  name : Option (List Char) := none
  description : Option (List Char) := none
  value : Option (List Char) := none
  ignored : Bool := false
  parentId : Option Int := none
  childIds : List Int := []
  backendDOMNodeId : Option Nat := none
deriving Repr, DecidableEq

/-- Processed tree node (types.ts `AccessibilityNode`/`RichNode`): the
per-node payload plus the wired `children`. -/
inductive RichNode where
  | mk (encodedId : Option EncodedId) (role : List Char)
      (name : Option (List Char)) (description : Option (List Char))
      (value : Option (List Char)) (nodeId : Option Int)
      (backendDOMNodeId : Option Nat) (children : List RichNode)
deriving Repr

namespace RichNode

def encodedId : RichNode → Option EncodedId
  | .mk e _ _ _ _ _ _ _ => e

def role : RichNode → List Char
  | .mk _ r _ _ _ _ _ _ => r

def name : RichNode → Option (List Char)
  | .mk _ _ n _ _ _ _ _ => n

def nodeId : RichNode → Option Int
  | .mk _ _ _ _ _ n _ _ => n

def children : RichNode → List RichNode
  | .mk _ _ _ _ _ _ _ cs => cs

end RichNode

/-- Per-frame metadata built by DOM traversal (types.ts `IframeInfo`). -/
structure IframeInfo where
  frameIndex : Nat
  parentFrameIndex : Option Nat := none
  iframeBackendNodeId : Option Nat := none
  contentDocumentBackendNodeId : Option Nat := none
  xpath : List Char := []
  src : Option (List Char) := none
  name : Option (List Char) := none
  siblingPosition : Nat := 0
  frameId : Option FrameId := none
  cdpFrameId : Option FrameId := none
  executionContextId : Option Nat := none
  cdpSessionId : Option SessionId := none
  framePath : Option (List (List Char)) := none
deriving Repr, DecidableEq

/-- Snapshot of a capture cycle (types.ts `A11yDOMState`): the elements
map, the formatted text tree and the three id maps. -/
structure A11yDOMState where
  elements : List (EncodedId × RichNode) := []
  domState : List Char := []
  xpathMap : List (EncodedId × List Char) := []
  backendNodeMap : List (EncodedId × Nat) := []
  frameMap : List (Nat × IframeInfo) := []
deriving Repr

/-! ## String helpers shared by the error classifiers

JS `String.prototype.startsWith` and `String.prototype.includes`. -/

/-- Whether `hay` starts with `pre`. -/
def listStartsWith : List Char → List Char → Bool
  | _, [] => true
  | [], _ :: _ => false
  | h :: hs, p :: ps => h = p && listStartsWith hs ps

/-- Whether `needle` occurs as a contiguous substring of `hay`. -/
def listIncludes (hay needle : List Char) : Bool :=
  match hay with
  | [] => listStartsWith [] needle
  | _ :: rest => listStartsWith hay needle || listIncludes rest needle

/-! ## C6: captureDOMState retry policy

Source: the unnamed dom-capture source (`captureDOMState`,
`NAVIGATION_ERROR_SNIPPETS`, `isRecoverableDomError`,
`isPlaceholderSnapshot`).  The outcome of each `getA11yDOM` call is an
oracle input; the run also records a trace of the attempts and of the
`waitForSettledDOM` calls between them. -/

/-- dom-capture: `DOM_CAPTURE_MAX_ATTEMPTS = 3`. -/
def DOM_CAPTURE_MAX_ATTEMPTS : Nat := 3

/-- dom-capture: `NAVIGATION_ERROR_SNIPPETS`. -/
def NAVIGATION_ERROR_SNIPPETS : List (List Char) :=
  ["Execution context was destroyed".toList,
   "Cannot find context".toList,
   "Target closed".toList]

/-- Embeds `isRecoverableDomError`: a thrown error (its message embedded
as `List Char`, empty for a missing message) is recoverable when the
message contains one of the navigation snippets. -/
def isRecoverableDomError (message : List Char) : Bool :=
  !message.isEmpty &&
    NAVIGATION_ERROR_SNIPPETS.any (fun snippet => listIncludes message snippet)

/-- Embeds `isPlaceholderSnapshot`. -/
def isPlaceholderSnapshot (snapshot : A11yDOMState) : Bool :=
  if snapshot.elements.length > 0 then false
  else listStartsWith snapshot.domState
    "Error: Could not extract accessibility tree".toList

/-- Outcome of one `getA11yDOM` call: a snapshot, or a thrown error
carrying its message. -/
inductive CaptureOutcome where
  | ok (snapshot : A11yDOMState)
  | failed (message : List Char)

/-- Observable events of a `captureDOMState` run. -/
inductive CaptureEvent where
  | attemptCall (i : Nat)
  | settleWait
deriving Repr, DecidableEq

/-- An attempt outcome on which the loop keeps retrying: a placeholder
snapshot, or an error recognised by `isRecoverableDomError`. -/
def retryableOutcome : CaptureOutcome → Bool
  | .ok snapshot => isPlaceholderSnapshot snapshot
  | .failed message => isRecoverableDomError message

/-- The loop body of `captureDOMState`, recursing over the remaining
iterations of `for (attempt = 0; attempt < maxRetries; attempt++)`; the
`lastError` accumulator carries the message the final `throw` uses.
Returns the overall result and the event trace. -/
def captureDOMStateGo (attempts : Nat → CaptureOutcome) (maxRetries : Nat) :
    Nat → Nat → Option (List Char) →
    Except (List Char) A11yDOMState × List CaptureEvent
  | 0, attempt, lastError =>
    (Except.error (lastError.getD
      ("Failed to capture DOM state after ".toList ++ natRepr maxRetries ++
        " attempts".toList)), [])
  | remaining + 1, attempt, lastError =>
    match attempts attempt with
    | .ok snapshot =>
      if isPlaceholderSnapshot snapshot then
        let rest := captureDOMStateGo attempts maxRetries remaining
          (attempt + 1) (some snapshot.domState)
        (rest.1, .attemptCall attempt :: .settleWait :: rest.2)
      else (Except.ok snapshot, [.attemptCall attempt])
    | .failed message =>
      if isRecoverableDomError message then
        let rest := captureDOMStateGo attempts maxRetries remaining
          (attempt + 1) (some message)
        (rest.1, .attemptCall attempt :: .settleWait :: rest.2)
      else (Except.error message, [.attemptCall attempt])

/-- Embeds `captureDOMState` (retry loop over `getA11yDOM` outcomes). -/
def captureDOMState (attempts : Nat → CaptureOutcome)
    (maxRetries : Nat := DOM_CAPTURE_MAX_ATTEMPTS) :
    Except (List Char) A11yDOMState × List CaptureEvent :=
  captureDOMStateGo attempts maxRetries maxRetries 0 none

/-- Number of `getA11yDOM` attempts in a trace. -/
def attemptCount (trace : List CaptureEvent) : Nat :=
  (trace.filter fun e =>
    match e with
    | CaptureEvent.attemptCall _ => true
    | CaptureEvent.settleWait => false).length

/-- No two capture attempts are adjacent: a settle wait separates them. -/
def settleSeparated : List CaptureEvent → Bool
  | CaptureEvent.attemptCall _ :: CaptureEvent.attemptCall _ :: _ => false
  | _ :: rest => settleSeparated rest
  | [] => true

theorem captureDOMStateGo_attemptCount (attempts : Nat → CaptureOutcome)
    (maxRetries : Nat) :
    ∀ (remaining attempt : Nat) (lastError : Option (List Char)),
      attemptCount
        (captureDOMStateGo attempts maxRetries remaining attempt lastError).2 ≤
        remaining := by
  intro remaining
  induction remaining with
  | zero => intro attempt lastError; simp [captureDOMStateGo, attemptCount]
  | succ n ih =>
    intro attempt lastError
    rw [captureDOMStateGo]
    cases attempts attempt with
    | ok snapshot =>
      by_cases hp : isPlaceholderSnapshot snapshot
      · simp only [hp, if_true]
        have := ih (attempt + 1) (some snapshot.domState)
        simp [attemptCount] at this ⊢
        omega
      · simp [hp, attemptCount]
    | failed message =>
      by_cases hp : isRecoverableDomError message
      · simp only [hp, if_true]
        have := ih (attempt + 1) (some message)
        simp [attemptCount] at this ⊢
        omega
      · simp [hp, attemptCount]

theorem captureDOMStateGo_separated (attempts : Nat → CaptureOutcome)
    (maxRetries : Nat) :
    ∀ (remaining attempt : Nat) (lastError : Option (List Char)),
      settleSeparated
        (captureDOMStateGo attempts maxRetries remaining attempt lastError).2 =
        true := by
  intro remaining
  induction remaining with
  | zero => intro attempt lastError; simp [captureDOMStateGo, settleSeparated]
  | succ n ih =>
    intro attempt lastError
    rw [captureDOMStateGo]
    cases attempts attempt with
    | ok snapshot =>
      by_cases hp : isPlaceholderSnapshot snapshot
      · simp only [hp, if_true]
        simp [settleSeparated]
        exact ih (attempt + 1) (some snapshot.domState)
      · simp [hp, settleSeparated]
    | failed message =>
      by_cases hp : isRecoverableDomError message
      · simp only [hp, if_true]
        simp [settleSeparated]
        exact ih (attempt + 1) (some message)
      · simp [hp, settleSeparated]

theorem captureDOMStateGo_fatal (attempts : Nat → CaptureOutcome)
    (maxRetries : Nat) :
    ∀ (k remaining attempt : Nat) (lastError : Option (List Char))
      (message : List Char),
      (∀ j, j < k → retryableOutcome (attempts (attempt + j)) = true) →
      attempts (attempt + k) = .failed message →
      isRecoverableDomError message = false →
      k < remaining →
      (captureDOMStateGo attempts maxRetries remaining attempt lastError).1 =
          Except.error message ∧
        attemptCount
          (captureDOMStateGo attempts maxRetries remaining attempt
            lastError).2 = k + 1 := by
  intro k
  induction k with
  | zero =>
    intro remaining attempt lastError message hpre hk hnr hlt
    obtain ⟨r, hr⟩ := Nat.exists_eq_add_of_lt hlt
    subst hr
    rw [captureDOMStateGo]
    simp only [Nat.add_zero] at hk
    rw [hk]
    simp [hnr, attemptCount]
  | succ n ih =>
    intro remaining attempt lastError message hpre hk hnr hlt
    obtain ⟨r, hr⟩ := Nat.exists_eq_add_of_lt hlt
    subst hr
    rw [captureDOMStateGo]
    have h0 : retryableOutcome (attempts attempt) = true := by
      have := hpre 0 (by omega)
      simpa using this
    cases ha : attempts (attempt + 0) with
    | ok snapshot =>
      simp only [Nat.add_zero] at ha
      rw [ha]
      rw [ha] at h0
      rw [retryableOutcome] at h0
      simp only [h0, if_true]
      have hnext := ih (n + 1 + r) (attempt + 1) (some snapshot.domState)
        message
        (fun j hj => by
          have hthis := hpre (j + 1) (by omega)
          have heq : attempt + 1 + j = attempt + (j + 1) := by omega
          rw [heq]
          exact hthis)
        (by
          have heq : attempt + 1 + n = attempt + (n + 1) := by omega
          rw [heq]
          exact hk)
        hnr (by omega)
      refine ⟨hnext.1, ?_⟩
      simp [attemptCount] at hnext ⊢
      omega
    | failed msg2 =>
      simp only [Nat.add_zero] at ha
      rw [ha]
      rw [ha] at h0
      rw [retryableOutcome] at h0
      simp only [h0, if_true]
      have hnext := ih (n + 1 + r) (attempt + 1) (some msg2) message
        (fun j hj => by
          have hthis := hpre (j + 1) (by omega)
          have heq : attempt + 1 + j = attempt + (j + 1) := by omega
          rw [heq]
          exact hthis)
        (by
          have heq : attempt + 1 + n = attempt + (n + 1) := by omega
          rw [heq]
          exact hk)
        hnr (by omega)
      refine ⟨hnext.1, ?_⟩
      simp [attemptCount] at hnext ⊢
      omega

theorem captureDOMStateGo_success (attempts : Nat → CaptureOutcome)
    (maxRetries : Nat) :
    ∀ (k remaining attempt : Nat) (lastError : Option (List Char))
      (snapshot : A11yDOMState),
      (∀ j, j < k → retryableOutcome (attempts (attempt + j)) = true) →
      attempts (attempt + k) = .ok snapshot →
      isPlaceholderSnapshot snapshot = false →
      k < remaining →
      (captureDOMStateGo attempts maxRetries remaining attempt lastError).1 =
          Except.ok snapshot ∧
        attemptCount
          (captureDOMStateGo attempts maxRetries remaining attempt
            lastError).2 = k + 1 := by
  intro k
  induction k with
  | zero =>
    intro remaining attempt lastError snapshot hpre hk hnp hlt
    obtain ⟨r, hr⟩ := Nat.exists_eq_add_of_lt hlt
    subst hr
    rw [captureDOMStateGo]
    simp only [Nat.add_zero] at hk
    rw [hk]
    simp [hnp, attemptCount]
  | succ n ih =>
    intro remaining attempt lastError snapshot hpre hk hnp hlt
    obtain ⟨r, hr⟩ := Nat.exists_eq_add_of_lt hlt
    subst hr
    rw [captureDOMStateGo]
    have h0 : retryableOutcome (attempts attempt) = true := by
      have := hpre 0 (by omega)
      simpa using this
    cases ha : attempts attempt with
    | ok first =>
      rw [ha] at h0
      rw [retryableOutcome] at h0
      simp only [h0, if_true]
      have hnext := ih (n + 1 + r) (attempt + 1) (some first.domState) snapshot
        (fun j hj => by
          have hthis := hpre (j + 1) (by omega)
          have heq : attempt + 1 + j = attempt + (j + 1) := by omega
          rw [heq]
          exact hthis)
        (by
          have heq : attempt + 1 + n = attempt + (n + 1) := by omega
          rw [heq]
          exact hk)
        hnp (by omega)
      refine ⟨hnext.1, ?_⟩
      simp [attemptCount] at hnext ⊢
      omega
    | failed msg2 =>
      rw [ha] at h0
      rw [retryableOutcome] at h0
      simp only [h0, if_true]
      have hnext := ih (n + 1 + r) (attempt + 1) (some msg2) snapshot
        (fun j hj => by
          have hthis := hpre (j + 1) (by omega)
          have heq : attempt + 1 + j = attempt + (j + 1) := by omega
          rw [heq]
          exact hthis)
        (by
          have heq : attempt + 1 + n = attempt + (n + 1) := by omega
          rw [heq]
          exact hk)
        hnp (by omega)
      refine ⟨hnext.1, ?_⟩
      simp [attemptCount] at hnext ⊢
      omega

theorem captureDOMStateGo_exhausted (attempts : Nat → CaptureOutcome)
    (maxRetries : Nat) :
    ∀ (remaining attempt : Nat) (lastError : Option (List Char)),
      (∀ j, j < remaining → retryableOutcome (attempts (attempt + j)) = true) →
      (∃ message,
        (captureDOMStateGo attempts maxRetries remaining attempt lastError).1 =
          Except.error message) ∧
      attemptCount
        (captureDOMStateGo attempts maxRetries remaining attempt lastError).2 =
        remaining := by
  intro remaining
  induction remaining with
  | zero =>
    intro attempt lastError hpre
    rw [captureDOMStateGo]
    exact ⟨⟨_, rfl⟩, by simp [attemptCount]⟩
  | succ n ih =>
    intro attempt lastError hpre
    rw [captureDOMStateGo]
    have h0 : retryableOutcome (attempts attempt) = true := by
      have := hpre 0 (by omega)
      simpa using this
    cases ha : attempts attempt with
    | ok first =>
      rw [ha] at h0
      rw [retryableOutcome] at h0
      simp only [h0, if_true]
      have hnext := ih (attempt + 1) (some first.domState)
        (fun j hj => by
          have hthis := hpre (j + 1) (by omega)
          have heq : attempt + 1 + j = attempt + (j + 1) := by omega
          rw [heq]
          exact hthis)
      refine ⟨hnext.1, ?_⟩
      simp [attemptCount] at hnext ⊢
      omega
    | failed msg2 =>
      rw [ha] at h0
      rw [retryableOutcome] at h0
      simp only [h0, if_true]
      have hnext := ih (attempt + 1) (some msg2)
        (fun j hj => by
          have hthis := hpre (j + 1) (by omega)
          have heq : attempt + 1 + j = attempt + (j + 1) := by omega
          rw [heq]
          exact hthis)
      refine ⟨hnext.1, ?_⟩
      simp [attemptCount] at hnext ⊢
      omega

/-- C6: `captureDOMState` makes at most three `getA11yDOM` attempts, with
a settle wait between consecutive attempts; an attempt failing with an
execution-context-destroyed / target-closed error (or yielding the
placeholder snapshot) triggers a retry; any other error is rethrown
immediately, ending the run at that attempt; a clean snapshot is returned;
and when all three attempts are retryable failures the run throws instead
of returning a snapshot. -/
theorem captureDOMState_retry_policy (attempts : Nat → CaptureOutcome) :
    attemptCount (captureDOMState attempts).2 ≤ 3 ∧
    settleSeparated (captureDOMState attempts).2 = true ∧
    (∀ k message, k < 3 →
      (∀ j, j < k → retryableOutcome (attempts j) = true) →
      attempts k = .failed message →
      isRecoverableDomError message = false →
      (captureDOMState attempts).1 = Except.error message ∧
        attemptCount (captureDOMState attempts).2 = k + 1) ∧
    (∀ k snapshot, k < 3 →
      (∀ j, j < k → retryableOutcome (attempts j) = true) →
      attempts k = .ok snapshot →
      isPlaceholderSnapshot snapshot = false →
      (captureDOMState attempts).1 = Except.ok snapshot) ∧
    ((∀ j, j < 3 → retryableOutcome (attempts j) = true) →
      (∃ message, (captureDOMState attempts).1 = Except.error message) ∧
        attemptCount (captureDOMState attempts).2 = 3) := by
  refine ⟨?_, ?_, ?_, ?_, ?_⟩
  · exact captureDOMStateGo_attemptCount attempts 3 3 0 none
  · exact captureDOMStateGo_separated attempts 3 3 0 none
  · intro k message hk hpre ha hnr
    exact captureDOMStateGo_fatal attempts 3 k 3 0 none message
      (fun j hj => by simpa using hpre j hj) (by simpa using ha) hnr hk
  · intro k snapshot hk hpre ha hnp
    exact (captureDOMStateGo_success attempts 3 k 3 0 none snapshot
      (fun j hj => by simpa using hpre j hj) (by simpa using ha) hnp hk).1
  · intro hpre
    exact captureDOMStateGo_exhausted attempts 3 3 0 none
      (fun j hj => by simpa using hpre j hj)

/-- Concrete oracle for the C6 witness: the first attempt dies with a
target-closed error, the second returns a one-element snapshot. -/
def captureWitnessOracle : Nat → CaptureOutcome
  | 0 => CaptureOutcome.failed "Protocol error: Target closed.".toList
  | _ => CaptureOutcome.ok
      { elements := [(['0', '-', '1'],
          RichNode.mk (some ['0', '-', '1']) "button".toList
            (some "Go".toList) none none (some 1) (some 1) [])]
        domState := "[0-1] button: Go".toList }

/-- C6 witness: on the concrete oracle the first (recoverable) failure is
retried and the second attempt's snapshot is returned, through the retry
theorem applied at k = 1. -/
theorem captureDOMState_retry_policy_witness :
    (captureDOMState captureWitnessOracle).1 =
      Except.ok
        { elements := [(['0', '-', '1'],
            RichNode.mk (some ['0', '-', '1']) "button".toList
              (some "Go".toList) none none (some 1) (some 1) [])]
          domState := "[0-1] button: Go".toList } := by
  refine (captureDOMState_retry_policy captureWitnessOracle).2.2.2.1 1 _
    (by omega) ?_ rfl (by decide)
  intro j hj
  interval_cases j
  decide

/-! ## Element Resolver

Source: the unnamed element-resolver source (`resolveElement`,
`parseFrameIndex`, `resolveFrameSession`, `resolveFrameId`,
`getFallbackFrameId`, `recoverBackendNodeId`, `isMissingNodeError`).
The frame manager and the process-wide session cache are read-only inputs
(`ResolveEnv`); CDP responses come from a `WireOracle` indexed by call
count; the run returns its result, the updated context, and the trace of
CDP commands it issued. -/

/-- Result tuple of `resolveElement`. -/
structure ResolvedCDPElement where
  session : SessionId
  frameId : FrameId
  backendNodeId : Nat
  objectId : Option (List Char) := none
deriving Repr, DecidableEq

/-- The mutable slice of `ElementResolveContext`: the two id maps read and
written by the resolver, the frame map, the per-snapshot resolved-element
cache and the strictness flag. -/
structure ElementResolveContext where
  backendNodeMap : List (EncodedId × Nat) := []
  xpathMap : List (EncodedId × List Char) := []
  frameMap : List (Nat × IframeInfo) := []
  resolvedElementsCache : List (EncodedId × ResolvedCDPElement) := []
  strictFrameValidation : Bool := false
deriving Repr, DecidableEq

/-- Read-only environment of one `resolveElement` call: what the frame
manager and the module-level session cache answer. -/
structure ResolveEnv where
  managerFrameIdByIndex : Nat → Option FrameId := fun _ => none
  managerSessionOf : FrameId → Option SessionId := fun _ => none
  sessionCacheAt : Nat → Option SessionId := fun _ => none
  executionContextOf : FrameId → Option Nat := fun _ => none

/-- CDP responses, indexed by per-method call count within the run:
`resolveNodeResponse i b` answers the i-th `DOM.resolveNode` (issued with
backendNodeId `b`) with `result.object?.objectId` or a thrown message;
`evalObjectId i` is the i-th XPath `Runtime.evaluate` object id (`none`
when no node matched); `describeNode i` is the i-th `DOM.describeNode`
response (`node?.backendNodeId`). -/
structure WireOracle where
  resolveNodeResponse : Nat → Nat → Except (List Char) (Option (List Char))
  evalObjectId : Nat → Option (List Char) := fun _ => none
  describeNode : Nat → Except (List Char) (Option Nat) := fun _ => Except.ok none

/-- CDP commands a resolver run issues, in order. -/
inductive ResolveEvent where
  | cdpResolveNode (backendNodeId : Nat)
  | recoveryAttempt
  | cdpEvaluateXPath
  | cdpDescribeNode
deriving Repr, DecidableEq

/-- Embeds `parseFrameIndex`:
`Number.parseInt(frameIndexStr || "0", 10) || 0` (NaN collapses to 0). -/
def parseFrameIndex (encodedId : EncodedId) : Nat :=
  match parseIntDec ((jsSplitOnChar '-' encodedId).headD []) with
  | some n => n
  | none => 0

/-- Embeds `getFallbackFrameId`. -/
def getFallbackFrameId (frameInfo : Option IframeInfo) (frameIndex : Nat) :
    FrameId :=
  match frameInfo.bind (·.frameId) with
  | some fid => fid
  | none =>
    match frameInfo.bind (·.cdpFrameId) with
    | some fid => fid
    | none =>
      if frameIndex = 0 then "root".toList
      else "frame-".toList ++ natRepr frameIndex

/-- Embeds `resolveFrameId`: the manager's index lookup wins; without it,
strict mode throws, otherwise the fallback id is used. -/
def resolveFrameId (env : ResolveEnv) (frameInfo : Option IframeInfo)
    (frameIndex : Nat) (strict : Bool) : Except (List Char) FrameId :=
  match env.managerFrameIdByIndex frameIndex with
  | some fid => Except.ok fid
  | none =>
    if strict then
      Except.error ("[CDP][ElementResolver] Frame index ".toList ++
        natRepr frameIndex ++ " not tracked in FrameContextManager".toList)
    else Except.ok (getFallbackFrameId frameInfo frameIndex)

/-- Embeds `resolveFrameSession`: resolve the frame id, then use the
module session cache or the manager's session; no session is an error. -/
def resolveFrameSession (env : ResolveEnv) (frameIndex : Nat)
    (frameInfo : Option IframeInfo) (strict : Bool) :
    Except (List Char) (SessionId × FrameId) :=
  match resolveFrameId env frameInfo frameIndex strict with
  | Except.error e => Except.error e
  | Except.ok frameId =>
    match env.sessionCacheAt frameIndex with
    | some session => Except.ok (session, frameId)
    | none =>
      match env.managerSessionOf frameId with
      | some session => Except.ok (session, frameId)
      | none =>
        Except.error
          ("[CDP][ElementResolver] Session not registered for frameIndex ".toList
            ++ natRepr frameIndex)

/-- Embeds `isMissingNodeError` (recognition by message text). -/
def isMissingNodeError (message : List Char) : Bool :=
  !message.isEmpty &&
    (listIncludes message "Could not find node with given id".toList ||
      listIncludes message "No node with given id".toList)

/-- Embeds `recoverBackendNodeId`: look up the stored XPath, acquire an
execution context id, evaluate the XPath, read the fresh backendNodeId via
`DOM.describeNode`, store it in `backendNodeMap`, and return it.  `recIdx`
is the per-run recovery call count selecting the oracle responses. -/
def recoverBackendNodeId (encodedId : EncodedId)
    (ctx : ElementResolveContext) (frameIndex : Nat)
    (frameInfo : Option IframeInfo) (frameId : FrameId) (env : ResolveEnv)
    (wire : WireOracle) (recIdx : Nat) :
    Except (List Char) (Nat × ElementResolveContext) × List ResolveEvent :=
  match aget ctx.xpathMap encodedId with
  | none =>
    (Except.error ("XPath not found for encodedId ".toList ++ encodedId),
      [ResolveEvent.recoveryAttempt])
  | some _xpath =>
    let executionContextId :=
      (env.executionContextOf frameId).orElse fun _ =>
        frameInfo.bind (·.executionContextId)
    if frameIndex != 0 && executionContextId.isNone &&
        ctx.strictFrameValidation then
      (Except.error ("[CDP][ElementResolver] Execution context missing for frame ".toList
          ++ natRepr frameIndex),
        [ResolveEvent.recoveryAttempt])
    else
      match wire.evalObjectId recIdx with
      | none =>
        (Except.error ("Failed to recover node for ".toList ++ encodedId ++
            " via XPath".toList),
          [ResolveEvent.recoveryAttempt, ResolveEvent.cdpEvaluateXPath])
      | some _objectId =>
        match wire.describeNode recIdx with
        | Except.error e =>
          (Except.error e,
            [ResolveEvent.recoveryAttempt, ResolveEvent.cdpEvaluateXPath,
              ResolveEvent.cdpDescribeNode])
        | Except.ok none =>
          (Except.error ("DOM.describeNode did not return backendNodeId for ".toList
              ++ encodedId),
            [ResolveEvent.recoveryAttempt, ResolveEvent.cdpEvaluateXPath,
              ResolveEvent.cdpDescribeNode])
        | Except.ok (some backendNodeId) =>
          let updated : ElementResolveContext :=
            { ctx with
              backendNodeMap := aset ctx.backendNodeMap encodedId backendNodeId }
          (Except.ok (backendNodeId, updated),
            [ResolveEvent.recoveryAttempt, ResolveEvent.cdpEvaluateXPath,
              ResolveEvent.cdpDescribeNode])

/-- The post-cache-miss body of `resolveElement`: session resolution,
`DOM.resolveNode` with a single XPath recovery and retry on a missing-node
error, then map update and caching. -/
def resolveElementUncached (encodedId : EncodedId)
    (ctx : ElementResolveContext) (env : ResolveEnv) (wire : WireOracle)
    (frameIndex : Nat) (frameInfo : Option IframeInfo) :
    Except (List Char) ResolvedCDPElement × ElementResolveContext ×
      List ResolveEvent :=
  match resolveFrameSession env frameIndex frameInfo
      ctx.strictFrameValidation with
  | Except.error e => (Except.error e, ctx, [])
  | Except.ok (session, frameId) =>
    let pre :
        (Except (List Char) (Nat × ElementResolveContext)) ×
          List ResolveEvent × Nat :=
      match aget ctx.backendNodeMap encodedId with
      | some backendNodeId => (Except.ok (backendNodeId, ctx), [], 0)
      | none =>
        let recovered := recoverBackendNodeId encodedId ctx frameIndex
          frameInfo frameId env wire 0
        (recovered.1, recovered.2, 1)
    match pre with
    | (Except.error e, evs, _) => (Except.error e, ctx, evs)
    | (Except.ok (backendNodeId, ctx1), evs, nextRec) =>
      match wire.resolveNodeResponse 0 backendNodeId with
      | Except.ok objectId =>
        let ctx2 :=
          { ctx1 with
            backendNodeMap := aset ctx1.backendNodeMap encodedId backendNodeId }
        let resolved : ResolvedCDPElement :=
          { session := session, frameId := frameId,
            backendNodeId := backendNodeId, objectId := objectId }
        let ctx3 :=
          { ctx2 with
            resolvedElementsCache :=
              aset ctx2.resolvedElementsCache encodedId resolved }
        (Except.ok resolved, ctx3,
          evs ++ [ResolveEvent.cdpResolveNode backendNodeId])
      | Except.error message =>
        if isMissingNodeError message = false then
          (Except.error message, ctx1,
            evs ++ [ResolveEvent.cdpResolveNode backendNodeId])
        else
          let recovered := recoverBackendNodeId encodedId ctx1 frameIndex
            frameInfo frameId env wire nextRec
          match recovered.1 with
          | Except.error e =>
            (Except.error e, ctx1,
              evs ++ ResolveEvent.cdpResolveNode backendNodeId ::
                recovered.2)
          | Except.ok (backendNodeId2, ctx2) =>
            match wire.resolveNodeResponse 1 backendNodeId2 with
            | Except.error e =>
              (Except.error e, ctx2,
                evs ++ ResolveEvent.cdpResolveNode backendNodeId ::
                  recovered.2 ++
                  [ResolveEvent.cdpResolveNode backendNodeId2])
            | Except.ok objectId2 =>
              let ctx3 :=
                { ctx2 with
                  backendNodeMap :=
                    aset ctx2.backendNodeMap encodedId backendNodeId2 }
              let resolved : ResolvedCDPElement :=
                { session := session, frameId := frameId,
                  backendNodeId := backendNodeId2, objectId := objectId2 }
              let ctx4 :=
                { ctx3 with
                  resolvedElementsCache :=
                    aset ctx3.resolvedElementsCache encodedId resolved }
              (Except.ok resolved, ctx4,
                evs ++ ResolveEvent.cdpResolveNode backendNodeId ::
                  recovered.2 ++
                  [ResolveEvent.cdpResolveNode backendNodeId2])

/-- Embeds `resolveElement`: frame metadata check, resolved-element cache
probe, then the uncached body above. -/
def resolveElement (encodedId : EncodedId) (ctx : ElementResolveContext)
    (env : ResolveEnv) (wire : WireOracle) :
    Except (List Char) ResolvedCDPElement × ElementResolveContext ×
      List ResolveEvent :=
  let frameIndex := parseFrameIndex encodedId
  let frameInfo := if frameIndex = 0 then none else aget ctx.frameMap frameIndex
  if frameIndex ≠ 0 ∧ frameInfo = none then
    (Except.error ("Frame metadata not found for frameIndex ".toList ++
        natRepr frameIndex ++ " encodedId ".toList ++ encodedId), ctx, [])
  else
    let cachedHit :=
      match aget ctx.resolvedElementsCache encodedId with
      | some cachedElement =>
        if aget ctx.backendNodeMap encodedId = some cachedElement.backendNodeId
        then some cachedElement else none
      | none => none
    match cachedHit with
    | some cachedElement => (Except.ok cachedElement, ctx, [])
    | none => resolveElementUncached encodedId ctx env wire frameIndex frameInfo

/-- Number of XPath-recovery attempts in a resolver trace. -/
def recoveryCount (trace : List ResolveEvent) : Nat :=
  (trace.filter fun e =>
    match e with
    | ResolveEvent.recoveryAttempt => true
    | _ => false).length

/-- Number of `DOM.resolveNode` calls in a resolver trace. -/
def resolveNodeCount (trace : List ResolveEvent) : Nat :=
  (trace.filter fun e =>
    match e with
    | ResolveEvent.cdpResolveNode _ => true
    | _ => false).length

theorem recoveryCount_append (a b : List ResolveEvent) :
    recoveryCount (a ++ b) = recoveryCount a + recoveryCount b := by
  simp [recoveryCount]

theorem resolveNodeCount_append (a b : List ResolveEvent) :
    resolveNodeCount (a ++ b) = resolveNodeCount a + resolveNodeCount b := by
  simp [resolveNodeCount]

/-- Every `recoverBackendNodeId` call marks exactly one recovery attempt
and never issues `DOM.resolveNode` itself. -/
theorem recoveryCount_cons_resolve (b : Nat) (l : List ResolveEvent) :
    recoveryCount (ResolveEvent.cdpResolveNode b :: l) = recoveryCount l := by
  simp [recoveryCount]

theorem resolveNodeCount_cons_resolve (b : Nat) (l : List ResolveEvent) :
    resolveNodeCount (ResolveEvent.cdpResolveNode b :: l) =
      resolveNodeCount l + 1 := by
  simp [resolveNodeCount, List.filter]

theorem resolveNodeCount_single (b : Nat) :
    resolveNodeCount [ResolveEvent.cdpResolveNode b] = 1 := rfl

theorem resolveNodeCount_nil : resolveNodeCount [] = 0 := rfl

theorem recoveryCount_nil : recoveryCount [] = 0 := rfl

theorem recoverBackendNodeId_trace (encodedId : EncodedId)
    (ctx : ElementResolveContext) (frameIndex : Nat)
    (frameInfo : Option IframeInfo) (frameId : FrameId) (env : ResolveEnv)
    (wire : WireOracle) (recIdx : Nat) :
    recoveryCount (recoverBackendNodeId encodedId ctx frameIndex frameInfo
        frameId env wire recIdx).2 = 1 ∧
    resolveNodeCount (recoverBackendNodeId encodedId ctx frameIndex frameInfo
        frameId env wire recIdx).2 = 0 := by
  simp only [recoverBackendNodeId]
  cases aget ctx.xpathMap encodedId with
  | none => exact ⟨rfl, rfl⟩
  | some xp =>
    cases hb : (frameIndex != 0 &&
        (((env.executionContextOf frameId).orElse fun _ =>
          frameInfo.bind (·.executionContextId)).isNone) &&
        ctx.strictFrameValidation) with
    | true => exact ⟨rfl, rfl⟩
    | false =>
      cases wire.evalObjectId recIdx with
      | none => exact ⟨rfl, rfl⟩
      | some objId =>
        cases wire.describeNode recIdx with
        | error e => exact ⟨rfl, rfl⟩
        | ok ob =>
          cases ob with
          | none => exact ⟨rfl, rfl⟩
          | some b2 => exact ⟨rfl, rfl⟩

/-- C3: when the element is known (its backendNodeId is in the map, its
XPath availability aside) and the first `DOM.resolveNode` fails with a
missing-node message, the resolver makes exactly one XPath-recovery
attempt, issues at most one retry `DOM.resolveNode`, and on success the
retried call is the second and last one and `backendNodeMap` holds the
recovered backendNodeId; it never makes a second recovery attempt. -/
theorem resolveElement_single_recovery (encodedId : EncodedId)
    (ctx : ElementResolveContext) (env : ResolveEnv) (wire : WireOracle)
    (b : Nat) (message : List Char) (sf : SessionId × FrameId)
    (hnocache : aget ctx.resolvedElementsCache encodedId = none)
    (hsess : resolveFrameSession env (parseFrameIndex encodedId)
      (if parseFrameIndex encodedId = 0 then none
        else aget ctx.frameMap (parseFrameIndex encodedId))
      ctx.strictFrameValidation = Except.ok sf)
    (hframe : ¬(parseFrameIndex encodedId ≠ 0 ∧
      (if parseFrameIndex encodedId = 0 then none
        else aget ctx.frameMap (parseFrameIndex encodedId)) = none))
    (hknown : aget ctx.backendNodeMap encodedId = some b)
    (hfail : wire.resolveNodeResponse 0 b = Except.error message)
    (hmiss : isMissingNodeError message = true) :
    recoveryCount (resolveElement encodedId ctx env wire).2.2 = 1 ∧
    resolveNodeCount (resolveElement encodedId ctx env wire).2.2 ≤ 2 ∧
    (∀ el, (resolveElement encodedId ctx env wire).1 = Except.ok el →
      resolveNodeCount (resolveElement encodedId ctx env wire).2.2 = 2 ∧
      aget (resolveElement encodedId ctx env wire).2.1.backendNodeMap
        encodedId = some el.backendNodeId) := by
  obtain ⟨s0, f0⟩ := sf
  have hrt := recoverBackendNodeId_trace encodedId ctx
    (parseFrameIndex encodedId)
    (if parseFrameIndex encodedId = 0 then none
      else aget ctx.frameMap (parseFrameIndex encodedId))
    f0 env wire 0
  cases hrec : (recoverBackendNodeId encodedId ctx (parseFrameIndex encodedId)
      (if parseFrameIndex encodedId = 0 then none
        else aget ctx.frameMap (parseFrameIndex encodedId))
      f0 env wire 0).1 with
  | error e =>
    refine ⟨?_, ?_, fun el hel => ?_⟩
    · simp only [resolveElement, resolveElementUncached, hnocache, hsess, hknown, hfail, hmiss,
        if_neg hframe, hrec]
      simp [recoveryCount_cons_resolve]
      simpa [recoveryCount] using hrt.1
    · simp only [resolveElement, resolveElementUncached, hnocache, hsess, hknown, hfail, hmiss,
        if_neg hframe, hrec]
      have h2 := hrt.2
      simp [resolveNodeCount_cons_resolve, resolveNodeCount_nil]
      omega
    · simp only [resolveElement, resolveElementUncached, hnocache, hsess, hknown, hfail, hmiss,
        if_neg hframe, hrec] at hel
      simp at hel
  | ok pair =>
    obtain ⟨b2, ctx2⟩ := pair
    cases hr2 : wire.resolveNodeResponse 1 b2 with
    | error e =>
      refine ⟨?_, ?_, fun el hel => ?_⟩
      · simp only [resolveElement, resolveElementUncached, hnocache, hsess, hknown, hfail, hmiss,
          if_neg hframe, hrec, hr2]
        simp [recoveryCount_cons_resolve, recoveryCount_append, recoveryCount_nil]
        simpa [recoveryCount] using hrt.1
      · simp only [resolveElement, resolveElementUncached, hnocache, hsess, hknown, hfail, hmiss,
          if_neg hframe, hrec, hr2]
        have h2 := hrt.2
        simp [resolveNodeCount_cons_resolve, resolveNodeCount_append, resolveNodeCount_nil]
        omega
      · simp only [resolveElement, resolveElementUncached, hnocache, hsess, hknown, hfail, hmiss,
          if_neg hframe, hrec, hr2] at hel
        simp at hel
    | ok objectId2 =>
      refine ⟨?_, ?_, fun el hel => ?_⟩
      · simp only [resolveElement, resolveElementUncached, hnocache, hsess, hknown, hfail, hmiss,
          if_neg hframe, hrec, hr2]
        simp [recoveryCount_cons_resolve, recoveryCount_append, recoveryCount_nil]
        simpa [recoveryCount] using hrt.1
      · simp only [resolveElement, resolveElementUncached, hnocache, hsess, hknown, hfail, hmiss,
          if_neg hframe, hrec, hr2]
        have h2 := hrt.2
        simp [resolveNodeCount_cons_resolve, resolveNodeCount_append, resolveNodeCount_nil]
        omega
      · simp only [resolveElement, resolveElementUncached, hnocache, hsess, hknown, hfail, hmiss,
          if_neg hframe, hrec, hr2] at hel
        simp at hel
        constructor
        · simp only [resolveElement, resolveElementUncached, hnocache, hsess, hknown, hfail, hmiss,
            if_neg hframe, hrec, hr2]
          have h2 := hrt.2
          simp [resolveNodeCount_cons_resolve, resolveNodeCount_append, resolveNodeCount_nil]
          omega
        · rw [← hel]
          simp only [resolveElement, resolveElementUncached, hnocache, hsess, hknown, hfail, hmiss,
            if_neg hframe, hrec, hr2]
          simp [aget_aset_self]

/-- Concrete inputs for the C3 witness: element "0-5" is known under
backendNodeId 5 with a stored XPath; the first resolveNode answers with a
missing-node error, recovery finds backendNodeId 6, the retry succeeds. -/
def c3Ctx : ElementResolveContext :=
  { backendNodeMap := [("0-5".toList, 5)]
    xpathMap := [("0-5".toList, "/html/body/button[1]".toList)] }

def c3Env : ResolveEnv :=
  { managerFrameIdByIndex := fun _ => some "F0".toList
    sessionCacheAt := fun _ => some 1
    executionContextOf := fun _ => some 11 }

def c3Wire : WireOracle :=
  { resolveNodeResponse := fun i b =>
      if i = 0 ∧ b = 5 then Except.error "No node with given id".toList
      else Except.ok (some "obj-6".toList)
    evalObjectId := fun _ => some "obj-x".toList
    describeNode := fun _ => Except.ok (some 6) }

/-- C3 witness: on the concrete stale-element run, exactly one recovery
attempt happens, by the single-recovery theorem. -/
theorem resolveElement_single_recovery_witness :
    recoveryCount (resolveElement "0-5".toList c3Ctx c3Env c3Wire).2.2 = 1 ∧
    resolveNodeCount (resolveElement "0-5".toList c3Ctx c3Env c3Wire).2.2 ≤ 2 := by
  have happ := resolveElement_single_recovery "0-5".toList c3Ctx c3Env c3Wire
    5 "No node with given id".toList (1, "F0".toList)
    (by decide)
    rfl
    (by decide)
    (by decide)
    rfl
    (by decide)
  exact ⟨happ.1, happ.2.1⟩

/-- A successful recovery leaves every context field except
`backendNodeMap` unchanged. -/
theorem recoverBackendNodeId_ok_ctx (encodedId : EncodedId)
    (ctx : ElementResolveContext) (frameIndex : Nat)
    (frameInfo : Option IframeInfo) (frameId : FrameId) (env : ResolveEnv)
    (wire : WireOracle) (recIdx : Nat) (b2 : Nat)
    (ctxr : ElementResolveContext)
    (h : (recoverBackendNodeId encodedId ctx frameIndex frameInfo frameId env
      wire recIdx).1 = Except.ok (b2, ctxr)) :
    ctxr.frameMap = ctx.frameMap ∧ ctxr.xpathMap = ctx.xpathMap ∧
    ctxr.strictFrameValidation = ctx.strictFrameValidation ∧
    ctxr.resolvedElementsCache = ctx.resolvedElementsCache := by
  simp only [recoverBackendNodeId] at h
  cases hxp : aget ctx.xpathMap encodedId with
  | none => rw [hxp] at h; simp at h
  | some xp =>
    rw [hxp] at h
    cases hb : (frameIndex != 0 &&
        (((env.executionContextOf frameId).orElse fun _ =>
          frameInfo.bind (·.executionContextId)).isNone) &&
        ctx.strictFrameValidation) with
    | true => rw [hb] at h; simp at h
    | false =>
      rw [hb] at h
      cases hev : wire.evalObjectId recIdx with
      | none => rw [hev] at h; simp at h
      | some objId =>
        rw [hev] at h
        cases hdn : wire.describeNode recIdx with
        | error e => rw [hdn] at h; simp at h
        | ok ob =>
          rw [hdn] at h
          cases ob with
          | none => simp at h
          | some bx =>
            simp at h
            rw [← h.2]
            exact ⟨rfl, rfl, rfl, rfl⟩

/-- The cache-hit fast path of `resolveElement`: with the frame check
passing, a cached tuple whose backendNodeId still matches the map is
returned as is, with no state change and no CDP command. -/
theorem resolveElement_cached_hit (encodedId : EncodedId)
    (ctx : ElementResolveContext) (env : ResolveEnv) (wire : WireOracle)
    (el : ResolvedCDPElement)
    (hframe : ¬(parseFrameIndex encodedId ≠ 0 ∧
      (if parseFrameIndex encodedId = 0 then none
        else aget ctx.frameMap (parseFrameIndex encodedId)) = none))
    (hcache : aget ctx.resolvedElementsCache encodedId = some el)
    (hmap : aget ctx.backendNodeMap encodedId = some el.backendNodeId) :
    resolveElement encodedId ctx env wire = (Except.ok el, ctx, []) := by
  simp only [resolveElement, hcache, hmap, if_neg hframe]
  simp

/-- Any successful run of the uncached body ends with the returned
backendNodeId stored in the map, the returned tuple stored in the cache,
and the frame map unchanged. -/
theorem resolveElementUncached_ok (encodedId : EncodedId)
    (ctx : ElementResolveContext) (env : ResolveEnv) (wire : WireOracle)
    (frameIndex : Nat) (frameInfo : Option IframeInfo)
    (el : ResolvedCDPElement) (ctx2 : ElementResolveContext)
    (trace : List ResolveEvent)
    (hrun : resolveElementUncached encodedId ctx env wire frameIndex
      frameInfo = (Except.ok el, ctx2, trace)) :
    aget ctx2.backendNodeMap encodedId = some el.backendNodeId ∧
    aget ctx2.resolvedElementsCache encodedId = some el ∧
    ctx2.frameMap = ctx.frameMap := by
  simp only [resolveElementUncached] at hrun
  cases hs : resolveFrameSession env frameIndex frameInfo
      ctx.strictFrameValidation with
  | error e => simp only [hs] at hrun; simp at hrun
  | ok sf =>
    obtain ⟨s0, f0⟩ := sf
    simp only [hs] at hrun
    cases hb : aget ctx.backendNodeMap encodedId with
    | some b =>
      simp only [hb] at hrun
      cases hw : wire.resolveNodeResponse 0 b with
      | ok objectId =>
        simp only [hw] at hrun
        simp at hrun
        obtain ⟨hel, hctx, htr⟩ := hrun
        rw [← hctx, ← hel]
        exact ⟨by simp [aget_aset_self], by simp [aget_aset_self], rfl⟩
      | error message =>
        simp only [hw] at hrun
        cases hm : isMissingNodeError message with
        | false => simp only [hm] at hrun; simp at hrun
        | true =>
          simp only [hm] at hrun
          cases hrec : (recoverBackendNodeId encodedId ctx frameIndex
              frameInfo f0 env wire 0).1 with
          | error e => simp only [hrec] at hrun; simp at hrun
          | ok pr =>
            obtain ⟨b2, ctxr⟩ := pr
            simp only [hrec] at hrun
            have hfields := recoverBackendNodeId_ok_ctx encodedId ctx
              frameIndex frameInfo f0 env wire 0 b2 ctxr hrec
            cases hw2 : wire.resolveNodeResponse 1 b2 with
            | error e => simp only [hw2] at hrun; simp at hrun
            | ok objectId2 =>
              simp only [hw2] at hrun
              simp at hrun
              obtain ⟨hel, hctx, htr⟩ := hrun
              rw [← hctx, ← hel]
              refine ⟨by simp [aget_aset_self], by simp [aget_aset_self], ?_⟩
              exact hfields.1
    | none =>
      simp only [hb] at hrun
      cases hrec0 : (recoverBackendNodeId encodedId ctx frameIndex
          frameInfo f0 env wire 0).1 with
      | error e => simp only [hrec0] at hrun; simp at hrun
      | ok pr0 =>
        obtain ⟨b0, ctx0⟩ := pr0
        simp only [hrec0] at hrun
        have hfields0 := recoverBackendNodeId_ok_ctx encodedId ctx
          frameIndex frameInfo f0 env wire 0 b0 ctx0 hrec0
        cases hw : wire.resolveNodeResponse 0 b0 with
        | ok objectId =>
          simp only [hw] at hrun
          simp at hrun
          obtain ⟨hel, hctx, htr⟩ := hrun
          rw [← hctx, ← hel]
          refine ⟨by simp [aget_aset_self], by simp [aget_aset_self], ?_⟩
          exact hfields0.1
        | error message =>
          simp only [hw] at hrun
          cases hm : isMissingNodeError message with
          | false => simp only [hm] at hrun; simp at hrun
          | true =>
            simp only [hm] at hrun
            cases hrec1 : (recoverBackendNodeId encodedId ctx0 frameIndex
                frameInfo f0 env wire 1).1 with
            | error e => simp only [hrec1] at hrun; simp at hrun
            | ok pr1 =>
              obtain ⟨b1, ctx1⟩ := pr1
              simp only [hrec1] at hrun
              have hfields1 := recoverBackendNodeId_ok_ctx encodedId ctx0
                frameIndex frameInfo f0 env wire 1 b1 ctx1 hrec1
              cases hw2 : wire.resolveNodeResponse 1 b1 with
              | error e => simp only [hw2] at hrun; simp at hrun
              | ok objectId2 =>
                simp only [hw2] at hrun
                simp at hrun
                obtain ⟨hel, hctx, htr⟩ := hrun
                rw [← hctx, ← hel]
                refine ⟨by simp [aget_aset_self], by simp [aget_aset_self], ?_⟩
                rw [hfields1.1, hfields0.1]

/-- C10: a successful `resolveElement` leaves `backendNodeMap[encodedId]`
equal to the returned backendNodeId, stores the returned tuple in the
per-snapshot resolved-element cache, and an immediately repeated call on
the updated context — whatever the wire now answers — returns the same
tuple from the cache without issuing any CDP command. -/
theorem resolveElement_cache_roundtrip (encodedId : EncodedId)
    (ctx : ElementResolveContext) (env : ResolveEnv) (wire : WireOracle)
    (el : ResolvedCDPElement) (ctx2 : ElementResolveContext)
    (trace : List ResolveEvent)
    (hrun : resolveElement encodedId ctx env wire =
      (Except.ok el, ctx2, trace)) :
    aget ctx2.backendNodeMap encodedId = some el.backendNodeId ∧
    aget ctx2.resolvedElementsCache encodedId = some el ∧
    ∀ (env2 : ResolveEnv) (wire2 : WireOracle),
      resolveElement encodedId ctx2 env2 wire2 = (Except.ok el, ctx2, []) := by
  by_cases hfcond : (parseFrameIndex encodedId ≠ 0 ∧
      (if parseFrameIndex encodedId = 0 then none
        else aget ctx.frameMap (parseFrameIndex encodedId)) = none)
  · simp only [resolveElement, if_pos hfcond] at hrun
    simp at hrun
  · have hunfold : resolveElement encodedId ctx env wire =
        (match aget ctx.resolvedElementsCache encodedId with
          | some cachedElement =>
            if aget ctx.backendNodeMap encodedId =
                some cachedElement.backendNodeId
            then (Except.ok cachedElement, ctx, ([] : List ResolveEvent))
            else resolveElementUncached encodedId ctx env wire
              (parseFrameIndex encodedId)
              (if parseFrameIndex encodedId = 0 then none
                else aget ctx.frameMap (parseFrameIndex encodedId))
          | none => resolveElementUncached encodedId ctx env wire
              (parseFrameIndex encodedId)
              (if parseFrameIndex encodedId = 0 then none
                else aget ctx.frameMap (parseFrameIndex encodedId))) := by
      simp only [resolveElement, if_neg hfcond]
      cases aget ctx.resolvedElementsCache encodedId with
      | none => simp
      | some cachedElement =>
        by_cases hcb : aget ctx.backendNodeMap encodedId =
            some cachedElement.backendNodeId
        · simp [hcb]
        · simp [hcb]
    rw [hunfold] at hrun
    have main : aget ctx2.backendNodeMap encodedId = some el.backendNodeId ∧
        aget ctx2.resolvedElementsCache encodedId = some el ∧
        ctx2.frameMap = ctx.frameMap := by
      cases hc : aget ctx.resolvedElementsCache encodedId with
      | some cached =>
        simp only [hc] at hrun
        by_cases hcb : aget ctx.backendNodeMap encodedId =
            some cached.backendNodeId
        · rw [if_pos hcb] at hrun
          simp at hrun
          obtain ⟨hel, hctx, htr⟩ := hrun
          rw [← hctx, ← hel]
          exact ⟨hcb, hc, rfl⟩
        · rw [if_neg hcb] at hrun
          exact resolveElementUncached_ok encodedId ctx env wire _ _ el ctx2
            trace hrun
      | none =>
        simp only [hc] at hrun
        exact resolveElementUncached_ok encodedId ctx env wire _ _ el ctx2
          trace hrun
    refine ⟨main.1, main.2.1, fun env2 wire2 => ?_⟩
    refine resolveElement_cached_hit encodedId ctx2 env2 wire2 el ?_
      main.2.1 main.1
    rw [main.2.2]
    exact hfcond

/-- Concrete inputs for the C10 witness: element "0-7" resolves on the
first `DOM.resolveNode` with no recovery needed. -/
def c10Ctx : ElementResolveContext :=
  { backendNodeMap := [("0-7".toList, 7)] }

def c10Env : ResolveEnv :=
  { managerFrameIdByIndex := fun _ => some "F0".toList
    sessionCacheAt := fun _ => some 1 }

def c10Wire : WireOracle :=
  { resolveNodeResponse := fun _ _ => Except.ok (some "obj".toList) }

def c10El : ResolvedCDPElement :=
  { session := 1, frameId := "F0".toList, backendNodeId := 7
    objectId := some "obj".toList }

def c10Ctx2 : ElementResolveContext :=
  { backendNodeMap := [("0-7".toList, 7)]
    resolvedElementsCache := [("0-7".toList, c10El)] }

/-- C10 witness: after the concrete successful run, the map holds the
returned backendNodeId, the cache holds the tuple, and any repeat call is
answered from the cache with no CDP command, by the round-trip theorem. -/
theorem resolveElement_cache_roundtrip_witness :
    aget c10Ctx2.backendNodeMap "0-7".toList = some c10El.backendNodeId ∧
    aget c10Ctx2.resolvedElementsCache "0-7".toList = some c10El ∧
    ∀ (env2 : ResolveEnv) (wire2 : WireOracle),
      resolveElement "0-7".toList c10Ctx2 env2 wire2 =
        (Except.ok c10El, c10Ctx2, []) :=
  resolveElement_cache_roundtrip "0-7".toList c10Ctx c10Env c10Wire c10El
    c10Ctx2 [ResolveEvent.cdpResolveNode 7] (by rfl)

/-! ### C8: `performAction` (perform-action.ts) -/

/-- Embeds `isEncodedId` (scrollable-detection.ts lines 595–597):
`ID_PATTERN.test(id)` with `ID_PATTERN = /^\d+-\d+$/`, i.e. the string is
a nonempty digit run, one dash, and a nonempty digit run (splitting on "-"
yields exactly two all-digit nonempty chunks). -/
def isEncodedId (s : List Char) : Bool :=
  match jsSplitOnChar '-' s with
  | [a, b] => !a.isEmpty && a.all isDigitChar && !b.isEmpty && b.all isDigitChar
  | _ => false

/-- The compact result object of every action: `{ success, message }`
(the optional debug payload is omitted). -/
structure ActionOutput where
  success : Bool
  message : List Char
deriving Repr, DecidableEq

/-- The slice of `ctx.domState` that `performAction` reads: the elements
map, the (possibly absent) backendNodeMap whose presence gates the CDP
path, and the xpath/frame maps passed on to the helpers. -/
structure ActionDomState where
  elements : List (EncodedId × RichNode) := []
  backendNodeMap : Option (List (EncodedId × Nat)) := none
  xpathMap : List (EncodedId × List Char) := []
  frameMap : List (Nat × IframeInfo) := []

/-- The slice of `ActionContext` that decides control flow:
`shouldUseCDP = !!ctx.cdp && ctx.cdpActions !== false &&
!!ctx.domState.backendNodeMap`. -/
structure ActionContext where
  domState : ActionDomState
  hasCdp : Bool := false
  cdpActionsDisabled : Bool := false

/-- `PerformActionParams` (the debug-only `confidence` is omitted). -/
structure PerformActionParams where
  elementId : List Char
  method : List Char := []
  arguments : List (List Char) := []
  instruction : List Char := []

/-- The awaited element operations `performAction` can issue, in order. -/
inductive ActionOp where
  | cdpResolveElement
  | cdpDispatchAction
  | playwrightLocator
  | playwrightMethod
deriving Repr, DecidableEq

/-- Outcomes of the four awaited helper calls; a thrown JS error is an
`Except.error` carrying the message the `catch` block reads. -/
structure ActionEnv where
  resolveElementResult : Except (List Char) Unit := Except.ok ()
  dispatchResult : Except (List Char) Unit := Except.ok ()
  locatorResult : Except (List Char) Unit := Except.ok ()
  playwrightResult : Except (List Char) Unit := Except.ok ()

/-- `Failed to execute "<instruction>": <reason>`. -/
def actionFailMsg (instruction reason : List Char) : List Char :=
  "Failed to execute \"".toList ++ instruction ++ "\": ".toList ++ reason

/-- `Successfully executed: <instruction>`. -/
def actionOkMsg (instruction : List Char) : List Char :=
  "Successfully executed: ".toList ++ instruction

/-- Embeds `performAction` (perform-action.ts lines 20–154): encoded-id
format check, elements-map lookup, then the CDP path (resolveElement and
dispatchCDPAction) when `shouldUseCDP`, otherwise the Playwright path
(getElementLocator and executePlaywrightMethod); both paths sit in a
try/catch that converts a thrown error into `{ success: false }`.  The
second component lists the element operations issued. -/
def performAction (ctx : ActionContext) (params : PerformActionParams)
    (env : ActionEnv) : ActionOutput × List ActionOp :=
  if isEncodedId params.elementId = false then
    ({ success := false
       message := actionFailMsg params.instruction
         ("elementId \"".toList ++ params.elementId ++
           "\" is not in encoded format (frameIndex-backendNodeId).".toList) },
      [])
  else
    match aget ctx.domState.elements params.elementId with
    | none =>
      ({ success := false
         message := actionFailMsg params.instruction
           ("elementId \"".toList ++ params.elementId ++
             "\" not present in current DOM.".toList) },
        [])
    | some _elementMetadata =>
      if ctx.hasCdp && !ctx.cdpActionsDisabled &&
          ctx.domState.backendNodeMap.isSome then
        match env.resolveElementResult with
        | Except.error e =>
          ({ success := false, message := actionFailMsg params.instruction e },
            [ActionOp.cdpResolveElement])
        | Except.ok _ =>
          match env.dispatchResult with
          | Except.error e =>
            ({ success := false, message := actionFailMsg params.instruction e },
              [ActionOp.cdpResolveElement, ActionOp.cdpDispatchAction])
          | Except.ok _ =>
            ({ success := true, message := actionOkMsg params.instruction },
              [ActionOp.cdpResolveElement, ActionOp.cdpDispatchAction])
      else
        match env.locatorResult with
        | Except.error e =>
          ({ success := false, message := actionFailMsg params.instruction e },
            [ActionOp.playwrightLocator])
        | Except.ok _ =>
          match env.playwrightResult with
          | Except.error e =>
            ({ success := false, message := actionFailMsg params.instruction e },
              [ActionOp.playwrightLocator, ActionOp.playwrightMethod])
          | Except.ok _ =>
            ({ success := true, message := actionOkMsg params.instruction },
              [ActionOp.playwrightLocator, ActionOp.playwrightMethod])

/-- C8: every `performAction` invocation returns a `{ success, message }`
result and never throws — the message is the success template or a
`Failed to execute` explanation — and a malformed elementId or one absent
from the elements map yields `success = false` with no CDP or Playwright
operation dispatched. -/
theorem performAction_result_shape (ctx : ActionContext)
    (params : PerformActionParams) (env : ActionEnv) :
    (((performAction ctx params env).1.success = true ∧
        (performAction ctx params env).1.message =
          actionOkMsg params.instruction) ∨
      ((performAction ctx params env).1.success = false ∧
        ∃ reason, (performAction ctx params env).1.message =
          actionFailMsg params.instruction reason)) ∧
    (isEncodedId params.elementId = false →
      (performAction ctx params env).1.success = false ∧
      (performAction ctx params env).2 = []) ∧
    (aget ctx.domState.elements params.elementId = none →
      (performAction ctx params env).1.success = false ∧
      (performAction ctx params env).2 = []) := by
  by_cases hid : isEncodedId params.elementId = false
  · refine ⟨Or.inr ⟨?_, ?_⟩, fun _ => ⟨?_, ?_⟩, fun _ => ⟨?_, ?_⟩⟩ <;>
      simp [performAction, hid]
  · cases hel : aget ctx.domState.elements params.elementId with
    | none =>
      refine ⟨Or.inr ⟨?_, ?_⟩, fun h => absurd h hid, fun _ => ⟨?_, ?_⟩⟩ <;>
        simp [performAction, hid, hel]
    | some meta =>
      refine ⟨?_, fun h => absurd h hid, fun h => by simp [hel] at h⟩
      by_cases hcdp : (ctx.hasCdp && !ctx.cdpActionsDisabled &&
          ctx.domState.backendNodeMap.isSome) = true
      · cases hr : env.resolveElementResult with
        | error e =>
          refine Or.inr ⟨?_, e, ?_⟩ <;>
            simp [performAction, hid, hel, hcdp, hr]
        | ok u =>
          cases hd : env.dispatchResult with
          | error e =>
            refine Or.inr ⟨?_, e, ?_⟩ <;>
              simp [performAction, hid, hel, hcdp, hr, hd]
          | ok v =>
            refine Or.inl ⟨?_, ?_⟩ <;>
              simp [performAction, hid, hel, hcdp, hr, hd]
      · cases hr : env.locatorResult with
        | error e =>
          refine Or.inr ⟨?_, e, ?_⟩ <;>
            simp [performAction, hid, hel, hcdp, hr]
        | ok u =>
          cases hd : env.playwrightResult with
          | error e =>
            refine Or.inr ⟨?_, e, ?_⟩ <;>
              simp [performAction, hid, hel, hcdp, hr, hd]
          | ok v =>
            refine Or.inl ⟨?_, ?_⟩ <;>
              simp [performAction, hid, hel, hcdp, hr, hd]

/-- C8 witness: at the concrete malformed elementId "abc", the action
fails with no dispatched operation, by the result-shape theorem. -/
theorem performAction_result_shape_witness :
    (performAction { domState := {} } { elementId := "abc".toList }
      {}).1.success = false ∧
    (performAction { domState := {} } { elementId := "abc".toList } {}).2 = [] :=
  (performAction_result_shape { domState := {} } { elementId := "abc".toList }
    {}).2.1 (by decide)

/-! ### C5 and C1: the capture pipeline of `getA11yDOM` (part_007
`fetchIframeAXTrees`, `collectCrossOriginFrameData`, steps 5–7,
`mergeTreeResults`; part_006 `buildHierarchicalTree` pass 1;
utils.ts `generateFrameHeader`) -/

/-- An AX node carrying the `_frameIndex` tag attached on fetch. -/
structure TaggedAXNode where
  node : AXNode
  frameIndexTag : Nat
deriving Repr, DecidableEq

/-- The id maps a capture accumulates (types.ts `BackendIdMaps`;
`tagNameMap` and `accessibleNameMap` are not touched by the claims under
study and are omitted). -/
structure BackendIdMaps where
  backendNodeMap : List (EncodedId × Nat) := []
  xpathMap : List (EncodedId × List Char) := []
  frameMap : List (Nat × IframeInfo) := []
deriving Repr

/-- `Object.assign(target, source)`: every source entry written into the
target in source order. -/
def asetAll {κ α : Type} [DecidableEq κ] (m entries : List (κ × α)) :
    List (κ × α) :=
  entries.foldl (fun acc e => aset acc e.1 e.2) m

/-- `if (!target.has(k)) target.set(k, v)` over every source entry, in
order (the nested-frame merge loops of part_007). -/
def addIfAbsentAll {κ α : Type} [DecidableEq κ] (m entries : List (κ × α)) :
    List (κ × α) :=
  entries.foldl
    (fun acc e => match aget acc e.1 with
      | some _ => acc
      | none => aset acc e.1 e.2) m

/-- Read-only environment of one `fetchIframeAXTrees` run: the root
session, the manager's per-frame session and execution-context lookups,
the OOPIF list reported by the manager, and the CDP fetch results —
`sameOriginAXNodes` stands for the `Accessibility.getPartialAXTree`
result of a same-origin frame (after the DOM-fallback substitution, which
changes the nodes but not their frame tag), `crossOriginAXNodes` for the
`Accessibility.getFullAXTree` nodes of a dedicated-session frame (after
the same fallback), and `sameOriginFetchOk` is false when the same-origin
fetch throws (the catch returns null and contributes nothing).
Modelled from the spec: `subMapsOf` is the per-frame result of
`buildBackendIdMaps` (§4.3 Pass 1 — a DOM walk recording
`backendNodeMap`/`xpathMap`/`frameMap` entries for the visited nodes),
whose source file is absent. -/
structure IframeFetchEnv where
  rootSession : SessionId
  sessionOf : FrameId → Option SessionId := fun _ => none
  sameOriginAXNodes : Nat → List AXNode := fun _ => []
  crossOriginAXNodes : Nat → List AXNode := fun _ => []
  sameOriginFetchOk : Nat → Bool := fun _ => true
  oopifFrames : List FrameId := []
  oopifFrameIndexOf : FrameId → Option Nat := fun _ => none
  subMapsOf : Nat → BackendIdMaps := fun _ => {}
  managerExecCtxOf : FrameId → Option Nat := fun _ => none
  oopifUrlOf : FrameId → Option (List Char) := fun _ => none
  oopifParentOf : FrameId → Option FrameId := fun _ => none

/-- `frameInfo.frameId ?? frameInfo.cdpFrameId`. -/
def entryFrameId (info : IframeInfo) : Option FrameId :=
  info.frameId.orElse fun _ => info.cdpFrameId

/-- Embeds `collectCrossOriginFrameData` (part_007 lines 710–811): build
the frame's own backend-id maps on its session, `Object.assign` them into
the shared maps, store the frame's entry in `frameMap`, add the nested
sub-frames when absent, and return the frame's tagged AX nodes. -/
def collectCrossOriginFrameData (env : IframeFetchEnv)
    (maps : BackendIdMaps) (frameIndex : Nat) (frameInfo : IframeInfo)
    (session : SessionId) : BackendIdMaps × List TaggedAXNode :=
  match entryFrameId frameInfo with
  | none => (maps, [])
  | some frameId =>
    let subMaps := env.subMapsOf frameIndex
    let executionContextId :=
      (env.managerExecCtxOf frameId).orElse
        fun _ => frameInfo.executionContextId
    let maps1 : BackendIdMaps :=
      { backendNodeMap := asetAll maps.backendNodeMap subMaps.backendNodeMap
        xpathMap := asetAll maps.xpathMap subMaps.xpathMap
        frameMap := addIfAbsentAll
          (aset maps.frameMap frameIndex
            { frameInfo with
              frameIndex := frameIndex
              frameId := some frameId
              cdpFrameId := some frameId
              cdpSessionId := some session
              executionContextId := executionContextId })
          subMaps.frameMap }
    (maps1,
      (env.crossOriginAXNodes frameIndex).map
        fun n => TaggedAXNode.mk n frameIndex)

/-- First loop of `fetchIframeAXTrees`: a frame with a dedicated session
(`session !== rootSession`) is processed inline — its data collected at
once, the frame id entering `processedCrossOriginFrames` — while every
other frame is deferred onto `sameOriginFrames`.  Returns the inline
nodes, the deferred entries, the final processed set and the updated
maps. -/
def fetchIframePhase1 (env : IframeFetchEnv) :
    List (Nat × IframeInfo) → List FrameId → BackendIdMaps →
      List TaggedAXNode × List (Nat × IframeInfo) × List FrameId ×
        BackendIdMaps
  | [], processed, maps => ([], [], processed, maps)
  | (frameIndex, frameInfo) :: rest, processed, maps =>
    match entryFrameId frameInfo with
    | some frameId =>
      match env.sessionOf frameId with
      | some session =>
        if session ≠ env.rootSession then
          if frameId ∈ processed then fetchIframePhase1 env rest processed maps
          else
            let c := collectCrossOriginFrameData env maps frameIndex
              frameInfo session
            let r := fetchIframePhase1 env rest (frameId :: processed) c.1
            (c.2 ++ r.1, r.2.1, r.2.2.1, r.2.2.2)
        else
          let r := fetchIframePhase1 env rest processed maps
          (r.1, (frameIndex, frameInfo) :: r.2.1, r.2.2.1, r.2.2.2)
      | none =>
        let r := fetchIframePhase1 env rest processed maps
        (r.1, (frameIndex, frameInfo) :: r.2.1, r.2.2.1, r.2.2.2)
    | none =>
      let r := fetchIframePhase1 env rest processed maps
      (r.1, (frameIndex, frameInfo) :: r.2.1, r.2.2.1, r.2.2.2)

/-- Second phase: deferred same-origin frames, in order; a frame without
`contentDocumentBackendNodeId` or whose fetch throws contributes
nothing; the shared maps are not touched on this path. -/
def fetchSameOriginNodes (env : IframeFetchEnv) :
    List (Nat × IframeInfo) → List TaggedAXNode
  | [] => []
  | (frameIndex, frameInfo) :: rest =>
    (if frameInfo.contentDocumentBackendNodeId.isNone then []
      else if env.sameOriginFetchOk frameIndex = false then []
      else (env.sameOriginAXNodes frameIndex).map
        fun n => TaggedAXNode.mk n frameIndex) ++
      fetchSameOriginNodes env rest

/-- One OOPIF frame (part_007 lines 577–660): a frame without frameIndex
or session, or already processed inline, is skipped; otherwise its data
is collected into isolated fresh maps which are then merged back —
`Object.assign` for the id maps, add-if-absent for `frameMap` (the
parallel promises each check the phase-1 processed set). -/
def oopifFrameInfo (env : IframeFetchEnv) (frameId : FrameId)
    (frameIndex : Nat) : IframeInfo :=
  { frameIndex := frameIndex
    frameId := some frameId
    cdpFrameId := some frameId
    src := env.oopifUrlOf frameId
    xpath := "//iframe[@frame-index=\"".toList ++
      natRepr frameIndex ++ "\"]".toList
    parentFrameIndex := some
      (match env.oopifParentOf frameId with
        | some pf => (env.oopifFrameIndexOf pf).getD 0
        | none => 0)
    siblingPosition := 0 }

def processOopifFrame (env : IframeFetchEnv) (processed : List FrameId)
    (maps : BackendIdMaps) (frameId : FrameId) :
    BackendIdMaps × List TaggedAXNode :=
  match env.oopifFrameIndexOf frameId, env.sessionOf frameId with
  | some frameIndex, some session =>
    if frameId ∈ processed then (maps, [])
    else
      let c := collectCrossOriginFrameData env {} frameIndex
        (oopifFrameInfo env frameId frameIndex) session
      ({ backendNodeMap := asetAll maps.backendNodeMap c.1.backendNodeMap
         xpathMap := asetAll maps.xpathMap c.1.xpathMap
         frameMap := addIfAbsentAll maps.frameMap c.1.frameMap }, c.2)
  | _, _ => (maps, [])

/-- Third phase: OOPIF frames from the manager, appended last, merging
each frame's isolated maps back in order. -/
def fetchOopifNodes (env : IframeFetchEnv) (processed : List FrameId) :
    List FrameId → BackendIdMaps → List TaggedAXNode × BackendIdMaps
  | [], maps => ([], maps)
  | frameId :: rest, maps =>
    let c := processOopifFrame env processed maps frameId
    let r := fetchOopifNodes env processed rest c.1
    (c.2 ++ r.1, r.2)

/-- Result of `fetchIframeAXTrees`: the tagged nodes and the maps after
the in-place merges. -/
structure IframeFetchOut where
  nodes : List TaggedAXNode
  maps : BackendIdMaps

/-- Embeds `fetchIframeAXTrees` (part_007 lines 433–691): inline
cross-origin data first, deferred same-origin nodes next, OOPIF data
last; an empty frame map returns early with nothing fetched. -/
def fetchIframeAXTrees (env : IframeFetchEnv) (maps : BackendIdMaps)
    (frameEntries : List (Nat × IframeInfo)) : IframeFetchOut :=
  if frameEntries.isEmpty then ⟨[], maps⟩
  else
    let r := fetchIframePhase1 env frameEntries [] maps
    let so := fetchSameOriginNodes env r.2.1
    let oo := fetchOopifNodes env r.2.2.1 env.oopifFrames r.2.2.2
    ⟨r.1 ++ so ++ oo.1, oo.2⟩

/-- Keys of a JS `Map` built by insertion: first-occurrence order. -/
def firstOccurrences : List Nat → List Nat
  | [] => []
  | k :: rest => k :: (firstOccurrences rest).filter (· ≠ k)

/-- `frameGroups` keys (part_007 lines 1061–1070): group `allNodes` by
`_frameIndex`; `Map` iteration yields keys in first-occurrence order. -/
def frameGroupKeys (nodes : List TaggedAXNode) : List Nat :=
  firstOccurrences (nodes.map (·.frameIndexTag))

/-- The nodes grouped under one key, in order. -/
def frameGroupNodes (nodes : List TaggedAXNode) (k : Nat) : List AXNode :=
  (nodes.filter fun t => t.frameIndexTag = k).map (·.node)

/-- Embeds `generateFrameHeader` (utils.ts lines 85–95). -/
def generateFrameHeader (frameIndex : Nat) (framePath : List (List Char)) :
    List Char :=
  if frameIndex = 0 then "=== Frame 0 (Main) ===".toList
  else "=== Frame ".toList ++ natRepr frameIndex ++ " (".toList ++
    List.intercalate " → ".toList framePath ++ ") ===".toList

/-- `frameInfo?.framePath || (frameIndex === 0 ? ["Main"] :
[`Frame ${frameIndex}`])` (part_006 lines 227–229; `framePath` is a
nonempty array when present, so only absence selects the fallback; the
value-only `framePath` rewrite of `buildFramePaths` is left to the map
passed in, it adds or removes no key). -/
def framePathOf (frameMap : List (Nat × IframeInfo)) (frameIndex : Nat) :
    List (List Char) :=
  match (aget frameMap frameIndex).bind (·.framePath) with
  | some p => p
  | none =>
    if frameIndex = 0 then ["Main".toList]
    else ["Frame ".toList ++ natRepr frameIndex]

/-- Passes 1–5 of `buildHierarchicalTree` reduced to the text they emit:
the body text of a frame's listing is abstracted by `treeContentOf`
(the claim under study concerns listing order and separation, not body
content). -/
structure TreeBuildEnv where
  treeContentOf : Nat → List AXNode → List Char

/-- `simplified` of one frame (part_006 lines 222–231): the frame header,
a newline, and the frame's tree content. -/
def simplifiedOf (benv : TreeBuildEnv) (frameMap : List (Nat × IframeInfo))
    (frameIndex : Nat) (nodes : List AXNode) : List Char :=
  generateFrameHeader frameIndex (framePathOf frameMap frameIndex) ++
    '\n' :: benv.treeContentOf frameIndex nodes

/-- `mergeTreeResults` text join (part_007 line 833):
`treeResults.map((r) => r.simplified).join("\n\n")`. -/
def mergeTreeDomState (simplifieds : List (List Char)) : List Char :=
  List.intercalate "\n\n".toList simplifieds

/-- `allNodes` of a capture: main-frame nodes tagged 0, then the iframe
nodes; `fetchIframeAXTrees` receives the frame entries of the main DOM
walk's `frameMap` (part_007 lines 1011–1043). -/
def allTaggedNodes (env : IframeFetchEnv) (mainMaps : BackendIdMaps)
    (mainNodes : List AXNode) : List TaggedAXNode :=
  mainNodes.map (fun n => TaggedAXNode.mk n 0) ++
    (fetchIframeAXTrees env mainMaps mainMaps.frameMap).nodes

/-- The maps of the finished capture. -/
def captureMaps (env : IframeFetchEnv) (mainMaps : BackendIdMaps) :
    BackendIdMaps :=
  (fetchIframeAXTrees env mainMaps mainMaps.frameMap).maps

/-- The frame indices of a capture's listings, in listing order. -/
def captureListingKeys (env : IframeFetchEnv) (mainMaps : BackendIdMaps)
    (mainNodes : List AXNode) : List Nat :=
  frameGroupKeys (allTaggedNodes env mainMaps mainNodes)

/-- Steps 5–7 of `getA11yDOM` (part_007 lines 1061–1149): group by frame,
build each frame's `simplified` listing (reading the capture's final
frame map), merge with blank-line separators. -/
def mergedFrameListing (env : IframeFetchEnv) (benv : TreeBuildEnv)
    (mainMaps : BackendIdMaps) (mainNodes : List AXNode) : List Char :=
  mergeTreeDomState
    ((captureListingKeys env mainMaps mainNodes).map fun k =>
      simplifiedOf benv (captureMaps env mainMaps).frameMap k
        (frameGroupNodes (allTaggedNodes env mainMaps mainNodes) k))

/-- Concrete capture for the C5 counterexample: frame 1 is same-origin
(session = root), frame 2 has a dedicated session. -/
def c5MainNode : AXNode := { nodeId := some 1, role := some "RootWebArea".toList }

def c5Info1 : IframeInfo :=
  { frameIndex := 1, frameId := some "A".toList
    contentDocumentBackendNodeId := some 5 }

def c5Info2 : IframeInfo :=
  { frameIndex := 2, frameId := some "B".toList }

def c5MainMaps : BackendIdMaps :=
  { frameMap := [(1, c5Info1), (2, c5Info2)] }

def c5Env : IframeFetchEnv :=
  { rootSession := 1
    sessionOf := fun fid =>
      if fid = "A".toList then some 1
      else if fid = "B".toList then some 2 else none
    sameOriginAXNodes := fun _ => [{ nodeId := some 10 }]
    crossOriginAXNodes := fun _ => [{ nodeId := some 20 }] }

/-- The C5 counterexample listing order: main, then the dedicated-session
frame 2 (processed inline), then same-origin frame 1 — not ascending. -/
theorem mergedListing_ascending_counterexample :
    captureListingKeys c5Env c5MainMaps [c5MainNode] = [0, 2, 1] ∧
    ¬ List.Pairwise (· < ·)
      (captureListingKeys c5Env c5MainMaps [c5MainNode]) := by
  constructor
  · rfl
  · intro h
    rw [show captureListingKeys c5Env c5MainMaps [c5MainNode] = [0, 2, 1]
      from rfl] at h
    simp [List.pairwise_cons] at h

/-- A frame entry with no dedicated session: the manager resolves no
frame id, no session, or the root session, so the first loop defers it
(`isCrossOrigin` is falsy). -/
def isSameOriginEntry (env : IframeFetchEnv) (info : IframeInfo) : Bool :=
  match entryFrameId info with
  | none => true
  | some fid =>
    match env.sessionOf fid with
    | none => true
    | some s => s == env.rootSession

theorem fetchIframePhase1_all_same_origin (env : IframeFetchEnv)
    (fm : List (Nat × IframeInfo)) (processed : List FrameId)
    (maps : BackendIdMaps)
    (hso : ∀ p ∈ fm, isSameOriginEntry env p.2 = true) :
    fetchIframePhase1 env fm processed maps = ([], fm, processed, maps) := by
  induction fm with
  | nil => rfl
  | cons hd rest ih =>
    obtain ⟨frameIndex, frameInfo⟩ := hd
    have hhd := hso _ (List.mem_cons_self _ _)
    have hrest : ∀ p ∈ rest, isSameOriginEntry env p.2 = true :=
      fun p hp => hso p (List.mem_cons_of_mem _ hp)
    simp only [isSameOriginEntry] at hhd
    rw [fetchIframePhase1]
    cases hfid : entryFrameId frameInfo with
    | none => simp only [ih hrest]
    | some fid =>
      simp only [hfid] at hhd
      cases hsess : env.sessionOf fid with
      | none => simp only [hsess, ih hrest]
      | some s =>
        simp only [hsess] at hhd
        simp at hhd
        simp [hsess, hhd, ih hrest]

theorem fetchSameOriginNodes_tag_mem (env : IframeFetchEnv)
    (fm : List (Nat × IframeInfo)) (t : TaggedAXNode)
    (ht : t ∈ fetchSameOriginNodes env fm) :
    t.frameIndexTag ∈ fm.map Prod.fst := by
  induction fm with
  | nil => cases ht
  | cons hd rest ih =>
    obtain ⟨frameIndex, frameInfo⟩ := hd
    rw [fetchSameOriginNodes] at ht
    rw [List.map_cons]
    rcases List.mem_append.mp ht with hl | hr
    · have htag : t.frameIndexTag = frameIndex := by
        split at hl
        · cases hl
        · split at hl
          · cases hl
          · obtain ⟨n, _, hn⟩ := List.mem_map.mp hl
            rw [← hn]
      rw [htag]
      exact List.mem_cons_self _ _
    · exact List.mem_cons_of_mem _ (ih hr)

theorem fetchSameOriginNodes_tags_pairwise (env : IframeFetchEnv)
    (fm : List (Nat × IframeInfo))
    (hasc : List.Pairwise (· < ·) (fm.map Prod.fst)) :
    List.Pairwise (· ≤ ·)
      ((fetchSameOriginNodes env fm).map (·.frameIndexTag)) := by
  induction fm with
  | nil => exact List.Pairwise.nil
  | cons hd rest ih =>
    obtain ⟨frameIndex, frameInfo⟩ := hd
    rw [List.map_cons, List.pairwise_cons] at hasc
    rw [fetchSameOriginNodes, List.map_append]
    refine List.pairwise_append.mpr ⟨?_, ih hasc.2, ?_⟩
    · split
      · exact List.Pairwise.nil
      · split
        · exact List.Pairwise.nil
        · rw [List.map_map]
          refine List.pairwise_map.mpr ?_
          exact List.pairwise_of_forall (fun _ _ => le_refl frameIndex)
            |>.sublist (List.Sublist.refl _) |>.imp (fun h => h)
    · intro a ha b hb
      have hbmem : ∃ t ∈ fetchSameOriginNodes env rest,
          t.frameIndexTag = b := List.mem_map.mp hb
      obtain ⟨t, htmem, htb⟩ := hbmem
      have hbtag := fetchSameOriginNodes_tag_mem env rest t htmem
      rw [htb] at hbtag
      have hfb : frameIndex < b := hasc.1 b hbtag
      have hatag : a = frameIndex := by
        split at ha
        · cases ha
        · split at ha
          · cases ha
          · rw [List.map_map] at ha
            obtain ⟨n, _, hn⟩ := List.mem_map.mp ha
            exact hn.symm
      omega

theorem firstOccurrences_subset {l : List Nat} {x : Nat}
    (hx : x ∈ firstOccurrences l) : x ∈ l := by
  induction l with
  | nil => cases hx
  | cons k rest ih =>
    rw [firstOccurrences] at hx
    rcases List.mem_cons.mp hx with h | h
    · exact h ▸ List.mem_cons_self _ _
    · exact List.mem_cons_of_mem _ (ih (List.mem_filter.mp h).1)

theorem firstOccurrences_pairwise {l : List Nat}
    (hl : List.Pairwise (· ≤ ·) l) :
    List.Pairwise (· < ·) (firstOccurrences l) := by
  induction l with
  | nil => exact List.Pairwise.nil
  | cons k rest ih =>
    rw [List.pairwise_cons] at hl
    rw [firstOccurrences, List.pairwise_cons]
    refine ⟨?_, (ih hl.2).sublist (List.filter_sublist _)⟩
    intro x hx
    have hmem := firstOccurrences_subset (List.mem_filter.mp hx).1
    have hne : ¬ x = k := by
      have := (List.mem_filter.mp hx).2
      simpa using this
    have := hl.1 x hmem
    omega

theorem listStartsWith_append_self (p rest : List Char) :
    listStartsWith (p ++ rest) p = true := by
  induction p with
  | nil => cases rest <;> rfl
  | cons c cs ih => simp [listStartsWith, ih]

/-- C5 (amended): when every child frame is same-origin (no dedicated
session) and the frame map keys ascend, the merged listing opens with the
main frame (frameIndex 0), the listing keys strictly ascend, the merged
text is the blank-line join of the per-frame listings, and every listing
opens with its frame header. -/
theorem mergedListing_order (env : IframeFetchEnv) (benv : TreeBuildEnv)
    (mainMaps : BackendIdMaps) (mainNodes : List AXNode)
    (hmain : mainNodes ≠ [])
    (hso : ∀ p ∈ mainMaps.frameMap, isSameOriginEntry env p.2 = true)
    (hoopif : env.oopifFrames = [])
    (hasc : List.Pairwise (· < ·) (mainMaps.frameMap.map Prod.fst)) :
    (captureListingKeys env mainMaps mainNodes).head? = some 0 ∧
    List.Pairwise (· < ·) (captureListingKeys env mainMaps mainNodes) ∧
    mergedFrameListing env benv mainMaps mainNodes =
      List.intercalate "\n\n".toList
        ((captureListingKeys env mainMaps mainNodes).map fun k =>
          simplifiedOf benv (captureMaps env mainMaps).frameMap k
            (frameGroupNodes (allTaggedNodes env mainMaps mainNodes) k)) ∧
    (∀ k ∈ captureListingKeys env mainMaps mainNodes, ∀ nodes,
      listStartsWith
        (simplifiedOf benv (captureMaps env mainMaps).frameMap k nodes)
        (generateFrameHeader k
          (framePathOf (captureMaps env mainMaps).frameMap k)) = true) := by
  have htrees : (fetchIframeAXTrees env mainMaps mainMaps.frameMap).nodes =
      fetchSameOriginNodes env mainMaps.frameMap := by
    rw [fetchIframeAXTrees]
    by_cases hfm : mainMaps.frameMap.isEmpty
    · rw [if_pos hfm]
      cases h : mainMaps.frameMap with
      | nil => simp [h, fetchSameOriginNodes]
      | cons a b => rw [h] at hfm; simp at hfm
    · rw [if_neg hfm]
      rw [fetchIframePhase1_all_same_origin env mainMaps.frameMap [] mainMaps
        hso]
      simp [hoopif, fetchOopifNodes]
  have htags : (allTaggedNodes env mainMaps mainNodes).map (·.frameIndexTag) =
      mainNodes.map (fun _ => 0) ++
        (fetchSameOriginNodes env mainMaps.frameMap).map (·.frameIndexTag) := by
    rw [allTaggedNodes, htrees, List.map_append, List.map_map]
    rfl
  have hle : List.Pairwise (· ≤ ·)
      ((allTaggedNodes env mainMaps mainNodes).map (·.frameIndexTag)) := by
    rw [htags]
    refine List.pairwise_append.mpr
      ⟨?_, fetchSameOriginNodes_tags_pairwise env mainMaps.frameMap hasc, ?_⟩
    · exact List.pairwise_map.mpr
        (List.pairwise_of_forall fun _ _ => le_refl 0)
    · intro a ha b hb
      obtain ⟨n, _, hn⟩ := List.mem_map.mp ha
      rw [← hn]
      exact Nat.zero_le b
  refine ⟨?_, ?_, rfl, ?_⟩
  · rw [captureListingKeys, frameGroupKeys, htags]
    cases mainNodes with
    | nil => exact absurd rfl hmain
    | cons n rest => simp [firstOccurrences]
  · exact firstOccurrences_pairwise hle
  · intro k _ nodes
    rw [simplifiedOf]
    exact listStartsWith_append_self _ _

/-- Concrete all-same-origin capture for the C5 witness: frames 1 and 2
both resolve to the root session. -/
def c5wEnv : IframeFetchEnv :=
  { rootSession := 1
    sessionOf := fun _ => some 1
    sameOriginAXNodes := fun _ => [{ nodeId := some 10 }] }

def c5wInfo1 : IframeInfo :=
  { frameIndex := 1, frameId := some "A".toList
    contentDocumentBackendNodeId := some 5 }

def c5wInfo2 : IframeInfo :=
  { frameIndex := 2, frameId := some "B".toList
    contentDocumentBackendNodeId := some 6 }

def c5wMainMaps : BackendIdMaps :=
  { frameMap := [(1, c5wInfo1), (2, c5wInfo2)] }

def c5wBenv : TreeBuildEnv := { treeContentOf := fun _ _ => "content".toList }

/-- C5 witness: on the concrete all-same-origin capture, the listing
keys open with frame 0 and strictly ascend, by the order theorem. -/
theorem mergedListing_order_witness :
    (captureListingKeys c5wEnv c5wMainMaps [c5MainNode]).head? = some 0 ∧
    List.Pairwise (· < ·)
      (captureListingKeys c5wEnv c5wMainMaps [c5MainNode]) := by
  have h := mergedListing_order c5wEnv c5wBenv c5wMainMaps [c5MainNode]
    (by simp) (by decide) rfl (by decide)
  exact ⟨h.1, h.2.1⟩

/-! ### C1: snapshot map containment -/

/-- Embeds `isInteractive` (utils.ts lines 100–111): every role except the
structural-only three. -/
def isInteractiveRole (role : List Char) : Bool :=
  !(role = "none".toList || role = "generic".toList ||
    role = "InlineTextBox".toList)

/-- The whitespace JS `String.prototype.trim` strips (the characters that
occur in practice). -/
def jsSpace (c : Char) : Bool :=
  c = ' ' || c = '\t' || c = '\n' || c = '\r' || c = '\x0c'

/-- Truthiness of `s?.trim()`: present with a non-whitespace character. -/
def trimTruthy (s : Option (List Char)) : Bool :=
  match s with
  | none => false
  | some cs => cs.any fun c => !jsSpace c

/-- Embeds `decorateRoleIfScrollable` (scrollable-detection.ts lines
254–266). -/
def decorateRoleIfScrollable (role : List Char) (backendNodeId : Option Nat)
    (scrollableIds : List Nat) : List Char :=
  match backendNodeId with
  | some b =>
    if b ∈ scrollableIds then
      if !role.isEmpty && !(role = "generic".toList) && !(role = "none".toList)
      then "scrollable, ".toList ++ role
      else "scrollable".toList
    else role
  | none => role

/-- Pass 1 of `buildHierarchicalTree` (part_006 lines 160–198) per node:
skip pseudo-nodes, keep a node with visible name, children or an
interactive role (role converted as in `convertAXNode`), and give a kept
node with a `backendDOMNodeId` the encoded id
`createEncodedId(frameIndex, backendDOMNodeId)`.  Passes 2–4 only wire
and prune kept nodes, so the ids `collectNodes` later gathers into
`idToElement` are a subset of the ids produced here. -/
def keptId (frameIdx : Nat) (scrollableIds : List Nat) (n : AXNode) :
    Option EncodedId :=
  match n.nodeId with
  | none => none
  | some nodeId =>
    if nodeId < 0 then none
    else
      let role := decorateRoleIfScrollable (n.role.getD "unknown".toList)
        n.backendDOMNodeId scrollableIds
      if !(trimTruthy n.name || !n.childIds.isEmpty ||
          isInteractiveRole role) then none
      else
        match n.backendDOMNodeId with
        | some b => some (createEncodedId frameIdx b)
        | none => none

/-- The encoded ids pass 1 produces for one frame's nodes. -/
def pass1KeptIds (frameIdx : Nat) (scrollableIds : List Nat)
    (nodes : List AXNode) : List EncodedId :=
  nodes.filterMap (keptId frameIdx scrollableIds)

/-- The encoded ids of `Snapshot.elements`: `mergeTreeResults` unions the
per-frame `idToElement` maps over the frame groups in order. -/
def snapshotElementIds (env : IframeFetchEnv) (mainMaps : BackendIdMaps)
    (mainNodes : List AXNode) (scrollableIds : List Nat) : List EncodedId :=
  ((captureListingKeys env mainMaps mainNodes).map fun k =>
    pass1KeptIds k scrollableIds
      (frameGroupNodes (allTaggedNodes env mainMaps mainNodes) k)).flatten

/-- The frameIndex component embedded by `createEncodedId` parses back. -/
theorem parseFrameIndex_createEncodedId (k b : Nat) :
    parseFrameIndex (createEncodedId k b) = k := by
  have hk := canonicalNumStr_natRepr k
  have hb := canonicalNumStr_natRepr b
  have hsplit : jsSplitOnChar '-' (natRepr k ++ '-' :: natRepr b) =
      natRepr k :: [natRepr b] := by
    rw [jsSplitOnChar_append fun c hc => digit_ne_dash (hk.2.1 c hc)]
    rw [jsSplitOnChar_no_sep fun c hc => digit_ne_dash (hb.2.1 c hc)]
  rw [parseFrameIndex, createEncodedId, hsplit]
  simp [parseIntDec_canonical hk, digitsToNat_natRepr]

theorem aget_aset_isSome {κ α : Type} [DecidableEq κ]
    (m : List (κ × α)) (k k2 : κ) (v : α)
    (h : (aget m k).isSome = true) : (aget (aset m k2 v) k).isSome = true := by
  by_cases hk : k = k2
  · subst hk
    simp [aget_aset_self]
  · rw [aget_aset_ne m v hk]
    exact h

theorem asetAll_cons {κ α : Type} [DecidableEq κ]
    (m : List (κ × α)) (e : κ × α) (t : List (κ × α)) :
    asetAll m (e :: t) = asetAll (aset m e.1 e.2) t := rfl

theorem addIfAbsentAll_cons {κ α : Type} [DecidableEq κ]
    (m : List (κ × α)) (e : κ × α) (t : List (κ × α)) :
    addIfAbsentAll m (e :: t) =
      addIfAbsentAll
        (match aget m e.1 with
          | some _ => m
          | none => aset m e.1 e.2) t := rfl

theorem aget_asetAll_isSome {κ α : Type} [DecidableEq κ]
    (es : List (κ × α)) (m : List (κ × α)) (k : κ)
    (h : (aget m k).isSome = true) :
    (aget (asetAll m es) k).isSome = true := by
  induction es generalizing m with
  | nil => exact h
  | cons e t ih =>
    rw [asetAll_cons]
    exact ih (aset m e.1 e.2) (aget_aset_isSome m k e.1 e.2 h)

theorem aget_asetAll_isSome_of_mem {κ α : Type} [DecidableEq κ]
    (es : List (κ × α)) (m : List (κ × α)) (k : κ)
    (h : (aget es k).isSome = true) :
    (aget (asetAll m es) k).isSome = true := by
  induction es generalizing m with
  | nil => simp [aget] at h
  | cons e t ih =>
    obtain ⟨k1, v1⟩ := e
    rw [asetAll_cons]
    rw [aget] at h
    by_cases hk : k1 = k
    · subst hk
      exact aget_asetAll_isSome t (aset m k1 v1) k1 (by simp [aget_aset_self])
    · rw [if_neg hk] at h
      exact ih (aset m k1 v1) h

theorem aget_addIfAbsentAll_isSome {κ α : Type} [DecidableEq κ]
    (es : List (κ × α)) (m : List (κ × α)) (k : κ)
    (h : (aget m k).isSome = true) :
    (aget (addIfAbsentAll m es) k).isSome = true := by
  induction es generalizing m with
  | nil => exact h
  | cons e t ih =>
    rw [addIfAbsentAll_cons]
    cases hg : aget m e.1 with
    | some v =>
      simp only [hg]
      exact ih m h
    | none =>
      simp only [hg]
      exact ih (aset m e.1 e.2) (aget_aset_isSome m k e.1 e.2 h)

theorem aget_addIfAbsentAll_isSome_of_mem {κ α : Type} [DecidableEq κ]
    (es : List (κ × α)) (m : List (κ × α)) (k : κ)
    (h : (aget es k).isSome = true) :
    (aget (addIfAbsentAll m es) k).isSome = true := by
  induction es generalizing m with
  | nil => simp [aget] at h
  | cons e t ih =>
    obtain ⟨k1, v1⟩ := e
    rw [addIfAbsentAll_cons]
    rw [aget] at h
    by_cases hk : k1 = k
    · subst hk
      cases hg : aget m k1 with
      | some v =>
        simp only [hg]
        exact aget_addIfAbsentAll_isSome t m k1 (by simp [hg])
      | none =>
        simp only [hg]
        exact aget_addIfAbsentAll_isSome t (aset m k1 v1) k1
          (by simp [aget_aset_self])
    · rw [if_neg hk] at h
      cases hg : aget m k1 with
      | some v =>
        simp only [hg]
        exact ih m h
      | none =>
        simp only [hg]
        exact ih (aset m k1 v1) h

/-- Concrete capture for the C1 counterexample: the main AX tree holds a
kept interactive node with backendDOMNodeId 5, but the DOM walk recorded
nothing. -/
def c1Env : IframeFetchEnv := { rootSession := 1 }

def c1Node : AXNode :=
  { nodeId := some 1, role := some "button".toList
    name := some "Go".toList, backendDOMNodeId := some 5 }

/-- C1 counterexample: `buildHierarchicalTree` encodes a kept node's id
unconditionally, so the snapshot's elements can hold a key absent from
`backendNodeMap` and `xpathMap` when the DOM walk did not visit that
backend node. -/
theorem snapshot_containment_counterexample :
    createEncodedId 0 5 ∈ snapshotElementIds c1Env {} [c1Node] [] ∧
    aget (captureMaps c1Env {}).backendNodeMap (createEncodedId 0 5) =
      none ∧
    aget (captureMaps c1Env {}).xpathMap (createEncodedId 0 5) = none := by
  refine ⟨?_, rfl, rfl⟩
  show createEncodedId 0 5 ∈ snapshotElementIds c1Env {} [c1Node] []
  simp [snapshotElementIds, captureListingKeys, allTaggedNodes,
    fetchIframeAXTrees, frameGroupKeys, firstOccurrences, frameGroupNodes,
    pass1KeptIds, keptId, trimTruthy, jsSpace, c1Node, c1Env,
    decorateRoleIfScrollable, List.filterMap]

theorem aget_isSome_of_mem_keys {κ α : Type} [DecidableEq κ]
    {m : List (κ × α)} {k : κ} (h : k ∈ m.map Prod.fst) :
    (aget m k).isSome = true := by
  induction m with
  | nil => cases h
  | cons e t ih =>
    obtain ⟨k1, v1⟩ := e
    rw [aget]
    by_cases hk : k1 = k
    · simp [hk]
    · rw [if_neg hk]
      rw [List.map_cons] at h
      rcases List.mem_cons.mp h with h1 | h1
      · exact absurd h1.symm hk
      · exact ih h1

/-- Branch equation: a same-origin entry is deferred unchanged. -/
theorem fetchIframePhase1_cons_same (env : IframeFetchEnv)
    (frameIndex : Nat) (frameInfo : IframeInfo)
    (rest : List (Nat × IframeInfo)) (processed : List FrameId)
    (maps : BackendIdMaps) (h : isSameOriginEntry env frameInfo = true) :
    fetchIframePhase1 env ((frameIndex, frameInfo) :: rest) processed maps =
      ((fetchIframePhase1 env rest processed maps).1,
        (frameIndex, frameInfo) ::
          (fetchIframePhase1 env rest processed maps).2.1,
        (fetchIframePhase1 env rest processed maps).2.2.1,
        (fetchIframePhase1 env rest processed maps).2.2.2) := by
  rw [fetchIframePhase1]
  rw [isSameOriginEntry] at h
  cases hfid : entryFrameId frameInfo with
  | none => rfl
  | some fid =>
    simp only [hfid] at h
    cases hsess : env.sessionOf fid with
    | none => simp [hsess]
    | some s =>
      simp only [hsess] at h
      simp at h
      simp [hsess, h]

/-- An entry that is not same-origin names a dedicated session. -/
theorem not_sameOrigin_spec {env : IframeFetchEnv} {info : IframeInfo}
    (h : isSameOriginEntry env info = false) :
    ∃ fid s, entryFrameId info = some fid ∧ env.sessionOf fid = some s ∧
      s ≠ env.rootSession := by
  rw [isSameOriginEntry] at h
  cases hfid : entryFrameId info with
  | none => simp [hfid] at h
  | some fid =>
    simp only [hfid] at h
    cases hsess : env.sessionOf fid with
    | none => simp [hsess] at h
    | some s =>
      simp only [hsess] at h
      simp at h
      exact ⟨fid, s, rfl, hsess, h⟩

/-- Branch equation: a dedicated-session frame already processed is
skipped. -/
theorem fetchIframePhase1_cons_skip (env : IframeFetchEnv)
    (frameIndex : Nat) (frameInfo : IframeInfo)
    (rest : List (Nat × IframeInfo)) (processed : List FrameId)
    (maps : BackendIdMaps) (frameId : FrameId) (session : SessionId)
    (hfid : entryFrameId frameInfo = some frameId)
    (hsess : env.sessionOf frameId = some session)
    (hne : session ≠ env.rootSession) (hproc : frameId ∈ processed) :
    fetchIframePhase1 env ((frameIndex, frameInfo) :: rest) processed maps =
      fetchIframePhase1 env rest processed maps := by
  rw [fetchIframePhase1]
  simp only [hfid, hsess]
  rw [if_pos hne, if_pos hproc]

/-- Branch equation: a new dedicated-session frame is collected inline. -/
theorem fetchIframePhase1_cons_cross (env : IframeFetchEnv)
    (frameIndex : Nat) (frameInfo : IframeInfo)
    (rest : List (Nat × IframeInfo)) (processed : List FrameId)
    (maps : BackendIdMaps) (frameId : FrameId) (session : SessionId)
    (hfid : entryFrameId frameInfo = some frameId)
    (hsess : env.sessionOf frameId = some session)
    (hne : session ≠ env.rootSession) (hproc : frameId ∉ processed) :
    fetchIframePhase1 env ((frameIndex, frameInfo) :: rest) processed maps =
      ((collectCrossOriginFrameData env maps frameIndex frameInfo
          session).2 ++
        (fetchIframePhase1 env rest (frameId :: processed)
          (collectCrossOriginFrameData env maps frameIndex frameInfo
            session).1).1,
       (fetchIframePhase1 env rest (frameId :: processed)
         (collectCrossOriginFrameData env maps frameIndex frameInfo
           session).1).2.1,
       (fetchIframePhase1 env rest (frameId :: processed)
         (collectCrossOriginFrameData env maps frameIndex frameInfo
           session).1).2.2.1,
       (fetchIframePhase1 env rest (frameId :: processed)
         (collectCrossOriginFrameData env maps frameIndex frameInfo
           session).1).2.2.2) := by
  rw [fetchIframePhase1]
  simp only [hfid, hsess]
  rw [if_pos hne, if_neg hproc]

/-- The shared maps only grow through the first loop: any key present on
entry is present on exit (in all three maps). -/
theorem fetchIframePhase1_maps_mono (env : IframeFetchEnv)
    (fm : List (Nat × IframeInfo)) (processed : List FrameId)
    (maps : BackendIdMaps) (k : EncodedId) (i : Nat) :
    ((aget maps.backendNodeMap k).isSome = true →
      (aget (fetchIframePhase1 env fm processed
        maps).2.2.2.backendNodeMap k).isSome = true) ∧
    ((aget maps.xpathMap k).isSome = true →
      (aget (fetchIframePhase1 env fm processed
        maps).2.2.2.xpathMap k).isSome = true) ∧
    ((aget maps.frameMap i).isSome = true →
      (aget (fetchIframePhase1 env fm processed
        maps).2.2.2.frameMap i).isSome = true) := by
  induction fm generalizing processed maps with
  | nil => exact ⟨fun h => h, fun h => h, fun h => h⟩
  | cons hd rest ih =>
    obtain ⟨frameIndex, frameInfo⟩ := hd
    cases hso : isSameOriginEntry env frameInfo with
    | true =>
      rw [fetchIframePhase1_cons_same env frameIndex frameInfo rest
        processed maps hso]
      exact ih processed maps
    | false =>
      obtain ⟨frameId, session, hfid, hsess, hne⟩ := not_sameOrigin_spec hso
      by_cases hproc : frameId ∈ processed
      · rw [fetchIframePhase1_cons_skip env frameIndex frameInfo rest
          processed maps frameId session hfid hsess hne hproc]
        exact ih processed maps
      · rw [fetchIframePhase1_cons_cross env frameIndex frameInfo rest
          processed maps frameId session hfid hsess hne hproc]
        have hc := ih (frameId :: processed)
          (collectCrossOriginFrameData env maps frameIndex frameInfo
            session).1
        refine ⟨fun h => hc.1 ?_, fun h => hc.2.1 ?_, fun h => hc.2.2 ?_⟩
        · rw [collectCrossOriginFrameData, hfid]
          exact aget_asetAll_isSome _ _ _ h
        · rw [collectCrossOriginFrameData, hfid]
          exact aget_asetAll_isSome _ _ _ h
        · rw [collectCrossOriginFrameData, hfid]
          refine aget_addIfAbsentAll_isSome _ _ _ ?_
          exact aget_aset_isSome _ _ _ _ h

/-- The shared maps only grow through the OOPIF merge loop. -/
theorem fetchOopifNodes_maps_mono (env : IframeFetchEnv)
    (processed : List FrameId) (fl : List FrameId) (maps : BackendIdMaps)
    (k : EncodedId) (i : Nat) :
    ((aget maps.backendNodeMap k).isSome = true →
      (aget (fetchOopifNodes env processed fl
        maps).2.backendNodeMap k).isSome = true) ∧
    ((aget maps.xpathMap k).isSome = true →
      (aget (fetchOopifNodes env processed fl
        maps).2.xpathMap k).isSome = true) ∧
    ((aget maps.frameMap i).isSome = true →
      (aget (fetchOopifNodes env processed fl
        maps).2.frameMap i).isSome = true) := by
  induction fl generalizing maps with
  | nil => exact ⟨fun h => h, fun h => h, fun h => h⟩
  | cons frameId rest ih =>
    rw [fetchOopifNodes]
    have hstep := ih (processOopifFrame env processed maps frameId).1
    refine ⟨fun h => hstep.1 ?_, fun h => hstep.2.1 ?_, fun h => hstep.2.2 ?_⟩
      <;> simp only [processOopifFrame]
    · cases hx : env.oopifFrameIndexOf frameId with
      | none => simp only [hx]; exact h
      | some frameIndex =>
        cases hy : env.sessionOf frameId with
        | none => simp only [hx, hy]; exact h
        | some session =>
          simp only [hx, hy]
          by_cases hproc : frameId ∈ processed
          · rw [if_pos hproc]; exact h
          · rw [if_neg hproc]
            exact aget_asetAll_isSome _ _ _ h
    · cases hx : env.oopifFrameIndexOf frameId with
      | none => simp only [hx]; exact h
      | some frameIndex =>
        cases hy : env.sessionOf frameId with
        | none => simp only [hx, hy]; exact h
        | some session =>
          simp only [hx, hy]
          by_cases hproc : frameId ∈ processed
          · rw [if_pos hproc]; exact h
          · rw [if_neg hproc]
            exact aget_asetAll_isSome _ _ _ h
    · cases hx : env.oopifFrameIndexOf frameId with
      | none => simp only [hx]; exact h
      | some frameIndex =>
        cases hy : env.sessionOf frameId with
        | none => simp only [hx, hy]; exact h
        | some session =>
          simp only [hx, hy]
          by_cases hproc : frameId ∈ processed
          · rw [if_pos hproc]; exact h
          · rw [if_neg hproc]
            exact aget_addIfAbsentAll_isSome _ _ _ h

/-- The capture's final maps keep every key of the DOM walk's maps. -/
theorem captureMaps_mono (env : IframeFetchEnv) (mainMaps : BackendIdMaps)
    (k : EncodedId) (i : Nat) :
    ((aget mainMaps.backendNodeMap k).isSome = true →
      (aget (captureMaps env mainMaps).backendNodeMap k).isSome = true) ∧
    ((aget mainMaps.xpathMap k).isSome = true →
      (aget (captureMaps env mainMaps).xpathMap k).isSome = true) ∧
    ((aget mainMaps.frameMap i).isSome = true →
      (aget (captureMaps env mainMaps).frameMap i).isSome = true) := by
  rw [captureMaps, fetchIframeAXTrees]
  by_cases hfm : mainMaps.frameMap.isEmpty
  · rw [if_pos hfm]
    exact ⟨fun h => h, fun h => h, fun h => h⟩
  · rw [if_neg hfm]
    have h1 := fetchIframePhase1_maps_mono env mainMaps.frameMap [] mainMaps k i
    have h2 := fetchOopifNodes_maps_mono env
      (fetchIframePhase1 env mainMaps.frameMap [] mainMaps).2.2.1
      env.oopifFrames
      (fetchIframePhase1 env mainMaps.frameMap [] mainMaps).2.2.2 k i
    exact ⟨fun h => h2.1 (h1.1 h), fun h => h2.2.1 (h1.2.1 h),
      fun h => h2.2.2 (h1.2.2 h)⟩

/-- Unfolding of `collectCrossOriginFrameData` when the frame id is
known. -/
theorem collectCrossOriginFrameData_eq (env : IframeFetchEnv)
    (maps : BackendIdMaps) (frameIndex : Nat) (frameInfo : IframeInfo)
    (session : SessionId) (frameId : FrameId)
    (hfid : entryFrameId frameInfo = some frameId) :
    collectCrossOriginFrameData env maps frameIndex frameInfo session =
      ({ backendNodeMap := asetAll maps.backendNodeMap
           (env.subMapsOf frameIndex).backendNodeMap
         xpathMap := asetAll maps.xpathMap (env.subMapsOf frameIndex).xpathMap
         frameMap := addIfAbsentAll
           (aset maps.frameMap frameIndex
             { frameInfo with
               frameIndex := frameIndex
               frameId := some frameId
               cdpFrameId := some frameId
               cdpSessionId := some session
               executionContextId := (env.managerExecCtxOf frameId).orElse
                 fun _ => frameInfo.executionContextId })
           (env.subMapsOf frameIndex).frameMap },
       (env.crossOriginAXNodes frameIndex).map
         fun n => TaggedAXNode.mk n frameIndex) := by
  rw [collectCrossOriginFrameData, hfid]

/-- Every deferred entry of the first loop comes from the input list. -/
theorem fetchIframePhase1_deferred_mem (env : IframeFetchEnv)
    (fm : List (Nat × IframeInfo)) (processed : List FrameId)
    (maps : BackendIdMaps) (p : Nat × IframeInfo)
    (hp : p ∈ (fetchIframePhase1 env fm processed maps).2.1) : p ∈ fm := by
  induction fm generalizing processed maps with
  | nil => simp [fetchIframePhase1] at hp
  | cons hd rest ih =>
    obtain ⟨frameIndex, frameInfo⟩ := hd
    cases hso : isSameOriginEntry env frameInfo with
    | true =>
      rw [fetchIframePhase1_cons_same env frameIndex frameInfo rest
        processed maps hso] at hp
      rcases List.mem_cons.mp hp with h1 | h1
      · exact h1 ▸ List.mem_cons_self _ _
      · exact List.mem_cons_of_mem _ (ih processed maps h1)
    | false =>
      obtain ⟨frameId, session, hfid, hsess, hne⟩ := not_sameOrigin_spec hso
      by_cases hproc : frameId ∈ processed
      · rw [fetchIframePhase1_cons_skip env frameIndex frameInfo rest
          processed maps frameId session hfid hsess hne hproc] at hp
        exact List.mem_cons_of_mem _ (ih processed maps hp)
      · rw [fetchIframePhase1_cons_cross env frameIndex frameInfo rest
          processed maps frameId session hfid hsess hne hproc] at hp
        exact List.mem_cons_of_mem _ (ih (frameId :: processed) _ hp)

/-- Every deferred same-origin node comes from the same-origin fetch of
its own tag. -/
theorem fetchSameOriginNodes_src (env : IframeFetchEnv)
    (fm : List (Nat × IframeInfo)) (t : TaggedAXNode)
    (ht : t ∈ fetchSameOriginNodes env fm) :
    t.node ∈ env.sameOriginAXNodes t.frameIndexTag := by
  induction fm with
  | nil => cases ht
  | cons hd rest ih =>
    obtain ⟨frameIndex, frameInfo⟩ := hd
    rw [fetchSameOriginNodes] at ht
    rcases List.mem_append.mp ht with hl | hr
    · split at hl
      · cases hl
      · split at hl
        · cases hl
        · obtain ⟨n, hn, he⟩ := List.mem_map.mp hl
          rw [← he]
          exact hn
    · exact ih hr

/-- Every inline node of the first loop comes from the dedicated-session
fetch of its own tag, whose sub-maps are merged into the loop's final
maps (which also record the tag in `frameMap`). -/
theorem fetchIframePhase1_nodes_src (env : IframeFetchEnv)
    (fm : List (Nat × IframeInfo)) (processed : List FrameId)
    (maps : BackendIdMaps) (t : TaggedAXNode)
    (ht : t ∈ (fetchIframePhase1 env fm processed maps).1) :
    t.node ∈ env.crossOriginAXNodes t.frameIndexTag ∧
    (∀ k : EncodedId,
      (aget (env.subMapsOf t.frameIndexTag).backendNodeMap k).isSome = true →
      (aget (fetchIframePhase1 env fm processed
        maps).2.2.2.backendNodeMap k).isSome = true) ∧
    (∀ k : EncodedId,
      (aget (env.subMapsOf t.frameIndexTag).xpathMap k).isSome = true →
      (aget (fetchIframePhase1 env fm processed
        maps).2.2.2.xpathMap k).isSome = true) ∧
    (aget (fetchIframePhase1 env fm processed
      maps).2.2.2.frameMap t.frameIndexTag).isSome = true := by
  induction fm generalizing processed maps with
  | nil => simp [fetchIframePhase1] at ht
  | cons hd rest ih =>
    obtain ⟨frameIndex, frameInfo⟩ := hd
    cases hso : isSameOriginEntry env frameInfo with
    | true =>
      rw [fetchIframePhase1_cons_same env frameIndex frameInfo rest
        processed maps hso] at ht ⊢
      exact ih processed maps ht
    | false =>
      obtain ⟨frameId, session, hfid, hsess, hne⟩ := not_sameOrigin_spec hso
      by_cases hproc : frameId ∈ processed
      · rw [fetchIframePhase1_cons_skip env frameIndex frameInfo rest
          processed maps frameId session hfid hsess hne hproc] at ht ⊢
        exact ih processed maps ht
      · rw [fetchIframePhase1_cons_cross env frameIndex frameInfo rest
          processed maps frameId session hfid hsess hne hproc] at ht ⊢
        rw [collectCrossOriginFrameData_eq env maps frameIndex frameInfo
          session frameId hfid] at ht ⊢
        rcases List.mem_append.mp ht with hl | hr
        · obtain ⟨n, hn, he⟩ := List.mem_map.mp hl
          have htag : t.frameIndexTag = frameIndex := by rw [← he]
          have hnode : t.node = n := by rw [← he]
          rw [htag, hnode]
          have hmono := fun (k : EncodedId) (i : Nat) =>
            fetchIframePhase1_maps_mono env rest (frameId :: processed)
              { backendNodeMap := asetAll maps.backendNodeMap
                  (env.subMapsOf frameIndex).backendNodeMap
                xpathMap := asetAll maps.xpathMap
                  (env.subMapsOf frameIndex).xpathMap
                frameMap := addIfAbsentAll
                  (aset maps.frameMap frameIndex
                    { frameInfo with
                      frameIndex := frameIndex
                      frameId := some frameId
                      cdpFrameId := some frameId
                      cdpSessionId := some session
                      executionContextId :=
                        (env.managerExecCtxOf frameId).orElse
                          fun _ => frameInfo.executionContextId })
                  (env.subMapsOf frameIndex).frameMap } k i
          refine ⟨hn, fun k hk => ?_, fun k hk => ?_, ?_⟩
          · exact (hmono k 0).1 (aget_asetAll_isSome_of_mem _ _ _ hk)
          · exact (hmono k 0).2.1 (aget_asetAll_isSome_of_mem _ _ _ hk)
          · refine (hmono [] frameIndex).2.2 ?_
            refine aget_addIfAbsentAll_isSome _ _ _ ?_
            simp [aget_aset_self]
        · exact ih (frameId :: processed) _ hr

theorem fetchOopifNodes_cons (env : IframeFetchEnv)
    (processed : List FrameId) (frameId : FrameId) (rest : List FrameId)
    (maps : BackendIdMaps) :
    fetchOopifNodes env processed (frameId :: rest) maps =
      ((processOopifFrame env processed maps frameId).2 ++
        (fetchOopifNodes env processed rest
          (processOopifFrame env processed maps frameId).1).1,
       (fetchOopifNodes env processed rest
         (processOopifFrame env processed maps frameId).1).2) := rfl

theorem processOopifFrame_active (env : IframeFetchEnv)
    (processed : List FrameId) (maps : BackendIdMaps) (frameId : FrameId)
    (frameIndex : Nat) (session : SessionId)
    (hx : env.oopifFrameIndexOf frameId = some frameIndex)
    (hy : env.sessionOf frameId = some session)
    (hproc : frameId ∉ processed) :
    processOopifFrame env processed maps frameId =
      ({ backendNodeMap := asetAll maps.backendNodeMap
           (collectCrossOriginFrameData env {} frameIndex
             (oopifFrameInfo env frameId frameIndex)
             session).1.backendNodeMap
         xpathMap := asetAll maps.xpathMap
           (collectCrossOriginFrameData env {} frameIndex
             (oopifFrameInfo env frameId frameIndex) session).1.xpathMap
         frameMap := addIfAbsentAll maps.frameMap
           (collectCrossOriginFrameData env {} frameIndex
             (oopifFrameInfo env frameId frameIndex) session).1.frameMap },
       (collectCrossOriginFrameData env {} frameIndex
         (oopifFrameInfo env frameId frameIndex) session).2) := by
  simp only [processOopifFrame, hx, hy]
  rw [if_neg hproc]

/-- Every OOPIF node comes from the dedicated-session fetch of its own
tag, whose sub-maps are merged into the loop's final maps (which also
record the tag in `frameMap`). -/
theorem fetchOopifNodes_src (env : IframeFetchEnv)
    (processed : List FrameId) (fl : List FrameId) (maps : BackendIdMaps)
    (t : TaggedAXNode)
    (ht : t ∈ (fetchOopifNodes env processed fl maps).1) :
    t.node ∈ env.crossOriginAXNodes t.frameIndexTag ∧
    (∀ k : EncodedId,
      (aget (env.subMapsOf t.frameIndexTag).backendNodeMap k).isSome = true →
      (aget (fetchOopifNodes env processed fl
        maps).2.backendNodeMap k).isSome = true) ∧
    (∀ k : EncodedId,
      (aget (env.subMapsOf t.frameIndexTag).xpathMap k).isSome = true →
      (aget (fetchOopifNodes env processed fl
        maps).2.xpathMap k).isSome = true) ∧
    (aget (fetchOopifNodes env processed fl
      maps).2.frameMap t.frameIndexTag).isSome = true := by
  induction fl generalizing maps with
  | nil => simp [fetchOopifNodes] at ht
  | cons frameId rest ih =>
    rw [fetchOopifNodes_cons] at ht ⊢
    cases hx : env.oopifFrameIndexOf frameId with
    | none =>
      have hstep : processOopifFrame env processed maps frameId =
          (maps, []) := by simp only [processOopifFrame, hx]
      rw [hstep] at ht ⊢
      simp only [List.nil_append] at ht
      exact ih maps ht
    | some frameIndex =>
      cases hy : env.sessionOf frameId with
      | none =>
        have hstep : processOopifFrame env processed maps frameId =
            (maps, []) := by simp only [processOopifFrame, hx, hy]
        rw [hstep] at ht ⊢
        simp only [List.nil_append] at ht
        exact ih maps ht
      | some session =>
        by_cases hproc : frameId ∈ processed
        · have hstep : processOopifFrame env processed maps frameId =
              (maps, []) := by
            simp only [processOopifFrame, hx, hy]
            rw [if_pos hproc]
          rw [hstep] at ht ⊢
          simp only [List.nil_append] at ht
          exact ih maps ht
        · rw [processOopifFrame_active env processed maps frameId
            frameIndex session hx hy hproc] at ht ⊢
          have hcoll := collectCrossOriginFrameData_eq env {} frameIndex
            (oopifFrameInfo env frameId frameIndex) session frameId rfl
          rcases List.mem_append.mp ht with hl | hr
          · rw [hcoll] at hl
            obtain ⟨n, hn, he⟩ := List.mem_map.mp hl
            have htag : t.frameIndexTag = frameIndex := by rw [← he]
            have hnode : t.node = n := by rw [← he]
            rw [htag, hnode]
            have hmono := fun (k : EncodedId) (i : Nat) =>
              fetchOopifNodes_maps_mono env processed rest
                { backendNodeMap := asetAll maps.backendNodeMap
                    (collectCrossOriginFrameData env {} frameIndex
                      (oopifFrameInfo env frameId frameIndex)
                      session).1.backendNodeMap
                  xpathMap := asetAll maps.xpathMap
                    (collectCrossOriginFrameData env {} frameIndex
                      (oopifFrameInfo env frameId frameIndex)
                      session).1.xpathMap
                  frameMap := addIfAbsentAll maps.frameMap
                    (collectCrossOriginFrameData env {} frameIndex
                      (oopifFrameInfo env frameId frameIndex)
                      session).1.frameMap } k i
            refine ⟨hn, fun k hk => ?_, fun k hk => ?_, ?_⟩
            · refine (hmono k 0).1 ?_
              refine aget_asetAll_isSome_of_mem _ _ _ ?_
              rw [hcoll]
              exact aget_asetAll_isSome_of_mem _ _ _ hk
            · refine (hmono k 0).2.1 ?_
              refine aget_asetAll_isSome_of_mem _ _ _ ?_
              rw [hcoll]
              exact aget_asetAll_isSome_of_mem _ _ _ hk
            · refine (hmono [] frameIndex).2.2 ?_
              refine aget_addIfAbsentAll_isSome_of_mem _ _ _ ?_
              rw [hcoll]
              refine aget_addIfAbsentAll_isSome _ _ _ ?_
              simp [aget_aset_self]
          · exact ih _ hr

/-- Every fetched iframe node comes from the dedicated-session fetch of
its tag — with that frame's sub-maps merged into the capture's final maps
and the tag recorded in `frameMap` — or from the same-origin fetch of a
frame listed in the input frame map. -/
theorem fetchIframeAXTrees_src (env : IframeFetchEnv)
    (maps : BackendIdMaps) (fm : List (Nat × IframeInfo))
    (t : TaggedAXNode) (ht : t ∈ (fetchIframeAXTrees env maps fm).nodes) :
    (t.node ∈ env.crossOriginAXNodes t.frameIndexTag ∧
      (∀ k : EncodedId,
        (aget (env.subMapsOf t.frameIndexTag).backendNodeMap k).isSome =
          true →
        (aget (fetchIframeAXTrees env maps
          fm).maps.backendNodeMap k).isSome = true) ∧
      (∀ k : EncodedId,
        (aget (env.subMapsOf t.frameIndexTag).xpathMap k).isSome = true →
        (aget (fetchIframeAXTrees env maps fm).maps.xpathMap k).isSome =
          true) ∧
      (aget (fetchIframeAXTrees env maps
        fm).maps.frameMap t.frameIndexTag).isSome = true) ∨
    (t.node ∈ env.sameOriginAXNodes t.frameIndexTag ∧
      t.frameIndexTag ∈ fm.map Prod.fst) := by
  rw [fetchIframeAXTrees] at ht ⊢
  by_cases hfm : fm.isEmpty
  · rw [if_pos hfm] at ht
    simp at ht
  · rw [if_neg hfm] at ht ⊢
    simp only [List.mem_append] at ht
    rcases ht with (hp | hs) | ho
    · left
      have hsrc := fetchIframePhase1_nodes_src env fm [] maps t hp
      have hmono := fun (k : EncodedId) (i : Nat) =>
        fetchOopifNodes_maps_mono env
          (fetchIframePhase1 env fm [] maps).2.2.1 env.oopifFrames
          (fetchIframePhase1 env fm [] maps).2.2.2 k i
      exact ⟨hsrc.1, fun k hk => (hmono k 0).1 (hsrc.2.1 k hk),
        fun k hk => (hmono k 0).2.1 (hsrc.2.2.1 k hk),
        (hmono [] t.frameIndexTag).2.2 hsrc.2.2.2⟩
    · right
      refine ⟨fetchSameOriginNodes_src env _ t hs, ?_⟩
      have htag := fetchSameOriginNodes_tag_mem env _ t hs
      obtain ⟨q, hq, hqt⟩ := List.mem_map.mp htag
      have hqfm := fetchIframePhase1_deferred_mem env fm [] maps q hq
      rw [← hqt]
      exact List.mem_map.mpr ⟨q, hqfm, rfl⟩
    · left
      exact fetchOopifNodes_src env _ env.oopifFrames _ t ho

/-- A kept id names the node's backend id under the frame's index. -/
theorem keptId_shape {k : Nat} {s : List Nat} {n : AXNode} {id : EncodedId}
    (h : keptId k s n = some id) :
    ∃ b, n.backendDOMNodeId = some b ∧ id = createEncodedId k b := by
  rw [keptId] at h
  cases hnid : n.nodeId with
  | none => simp only [hnid] at h; cases h
  | some v =>
    simp only [hnid] at h
    by_cases hv : v < 0
    · rw [if_pos hv] at h
      cases h
    · rw [if_neg hv] at h
      split at h
      · cases h
      · cases hb : n.backendDOMNodeId with
        | none => simp only [hb] at h; cases h
        | some b =>
          simp only [hb] at h
          exact ⟨b, rfl, (Option.some.injEq _ _ ▸ h).symm⟩

/-- C1 (amended): provided the DOM walks cover the kept accessibility
nodes — every id pass 1 would keep from the main tree or a same-origin
frame's tree is a key of the main walk's maps, and every id kept from a
dedicated-session frame's tree is a key of that frame's own walk — every
EncodedId in the snapshot's elements is a key of the final
`backendNodeMap` and `xpathMap`; and unconditionally, the frameIndex
component of every elements key is 0 or a key of the final `frameMap`. -/
theorem snapshot_elements_containment (env : IframeFetchEnv)
    (mainMaps : BackendIdMaps) (mainNodes : List AXNode)
    (scrollableIds : List Nat)
    (hmaincov : ∀ id ∈ pass1KeptIds 0 scrollableIds mainNodes,
      (aget mainMaps.backendNodeMap id).isSome = true ∧
      (aget mainMaps.xpathMap id).isSome = true)
    (hsamecov : ∀ k,
      ∀ id ∈ pass1KeptIds k scrollableIds (env.sameOriginAXNodes k),
      (aget mainMaps.backendNodeMap id).isSome = true ∧
      (aget mainMaps.xpathMap id).isSome = true)
    (hcrosscov : ∀ k,
      ∀ id ∈ pass1KeptIds k scrollableIds (env.crossOriginAXNodes k),
      (aget (env.subMapsOf k).backendNodeMap id).isSome = true ∧
      (aget (env.subMapsOf k).xpathMap id).isSome = true) :
    ∀ id ∈ snapshotElementIds env mainMaps mainNodes scrollableIds,
      (aget (captureMaps env mainMaps).backendNodeMap id).isSome = true ∧
      (aget (captureMaps env mainMaps).xpathMap id).isSome = true ∧
      (parseFrameIndex id = 0 ∨
        (aget (captureMaps env mainMaps).frameMap
          (parseFrameIndex id)).isSome = true) := by
  intro id hid
  rw [snapshotElementIds] at hid
  obtain ⟨l, hl, hidl⟩ := List.mem_flatten.mp hid
  obtain ⟨k, hk, hlk⟩ := List.mem_map.mp hl
  rw [← hlk] at hidl
  obtain ⟨n, hn, hkept⟩ := List.mem_filterMap.mp hidl
  obtain ⟨b, hb, hidb⟩ := keptId_shape hkept
  have hpfi : parseFrameIndex id = k := by
    rw [hidb]
    exact parseFrameIndex_createEncodedId k b
  obtain ⟨t, htf, htn⟩ := List.mem_map.mp hn
  have htmem := (List.mem_filter.mp htf).1
  have httag : t.frameIndexTag = k :=
    of_decide_eq_true (List.mem_filter.mp htf).2
  rw [allTaggedNodes, List.mem_append] at htmem
  rcases htmem with hmain | hfetch
  · obtain ⟨n0, hn0, hn0t⟩ := List.mem_map.mp hmain
    have hk0 : k = 0 := by rw [← httag, ← hn0t]
    have hnn : n = n0 := by rw [← htn, ← hn0t]
    have hmem0 : id ∈ pass1KeptIds 0 scrollableIds mainNodes := by
      refine List.mem_filterMap.mpr ⟨n, ?_, ?_⟩
      · rw [hnn]; exact hn0
      · rw [← hk0]; exact hkept
    have hcov := hmaincov id hmem0
    have hmono := captureMaps_mono env mainMaps id 0
    exact ⟨hmono.1 hcov.1, hmono.2.1 hcov.2, Or.inl (hpfi.trans hk0)⟩
  · have hsrc := fetchIframeAXTrees_src env mainMaps mainMaps.frameMap t
      hfetch
    rw [httag, htn] at hsrc
    rcases hsrc with ⟨hnode, hbnm, hxp, hfmk⟩ | ⟨hnode, hkeys⟩
    · have hmem : id ∈ pass1KeptIds k scrollableIds
          (env.crossOriginAXNodes k) :=
        List.mem_filterMap.mpr ⟨n, hnode, hkept⟩
      have hcov := hcrosscov k id hmem
      refine ⟨hbnm id hcov.1, hxp id hcov.2, Or.inr ?_⟩
      rw [hpfi]
      exact hfmk
    · have hmem : id ∈ pass1KeptIds k scrollableIds
          (env.sameOriginAXNodes k) :=
        List.mem_filterMap.mpr ⟨n, hnode, hkept⟩
      have hcov := hsamecov k id hmem
      have hmono := captureMaps_mono env mainMaps id k
      refine ⟨hmono.1 hcov.1, hmono.2.1 hcov.2, Or.inr ?_⟩
      rw [hpfi]
      exact hmono.2.2 (aget_isSome_of_mem_keys hkeys)

/-- Concrete covered capture for the C1 witness: the main walk recorded
backend node 5. -/
def c1wMainMaps : BackendIdMaps :=
  { backendNodeMap := [(createEncodedId 0 5, 5)]
    xpathMap := [(createEncodedId 0 5, "/html/body/button[1]".toList)] }

/-- C1 witness: with the main walk covering the kept node, the element's
key is found in the final maps, by the containment theorem. -/
theorem snapshot_elements_containment_witness :
    (aget (captureMaps c1Env c1wMainMaps).backendNodeMap
      (createEncodedId 0 5)).isSome = true ∧
    (aget (captureMaps c1Env c1wMainMaps).xpathMap
      (createEncodedId 0 5)).isSome = true := by
  have h := snapshot_elements_containment c1Env c1wMainMaps [c1Node] []
    (by
      intro id hid
      simp [pass1KeptIds, keptId, c1Node, trimTruthy, jsSpace,
        decorateRoleIfScrollable, List.filterMap] at hid
      subst hid
      constructor <;> simp [aget, c1wMainMaps])
    (by
      intro k id hid
      simp [pass1KeptIds, c1Env, List.filterMap] at hid)
    (by
      intro k id hid
      simp [pass1KeptIds, c1Env, List.filterMap] at hid)
    (createEncodedId 0 5)
    (by
      simp [snapshotElementIds, captureListingKeys, allTaggedNodes,
        fetchIframeAXTrees, frameGroupKeys, firstOccurrences,
        frameGroupNodes, pass1KeptIds, keptId, trimTruthy, jsSpace,
        c1Node, c1Env, c1wMainMaps, decorateRoleIfScrollable,
        List.filterMap])
  exact ⟨h.1, h.2.1⟩

end Ctrl
